import Mathlib

/-!
# SRMS: Student Report Management System (src/SRMS.c)

A shallow embedding of the record-management layer of `src/SRMS.c` and the
properties of its account store and student store.

Modelling conventions.

* The global array `accounts[MAX_USERS]` together with `accounts_count` is a
  `List Account` whose length is the count (the live prefix of the array);
  likewise `students[MAX_STUDENTS]` / `students_count` is a `List Student`.
* A C string held in a fixed buffer is a `String` (its characters up to the
  terminating NUL); `strcmp(a, b) == 0` is equality of the two strings.
* The values an operation reads from standard input are parameters of the
  operation: a string parameter is the content of the local buffer after
  `fgets` and the removal of the newline, an `Option Int` parameter is the
  outcome of `scanf("%d", &m)` (`none` when no integer could be parsed), an
  `Option Char` parameter the outcome of `scanf(" %c", &rolec)`.
* Each operation returns the message it prints, as a `Status`, and the store
  it leaves.  Writing the store to its file (`save_accounts`,
  `save_students`) does not change the in-memory store and is not part of the
  returned state.
* `int` values are modelled by `Int`.  The marks the program itself stores lie
  in [0,100], so the sum of five marks is far from the limits of `int`.
* `float` values are modelled by the rationals they denote, and every `float`
  operation rounds its exact result to binary32 (`f32round`), as an
  implementation with `FLT_EVAL_METHOD` 0 does.
* An array write past the declared capacity has no defined behaviour; an
  operation that performs one returns `none`.
* The C library's `qsort` is described at two levels.  Its contract
  (`qsort_result`) is what every implementation guarantees: the result is a
  permutation of the array in ascending order of the comparison function, the
  order of elements that compare equal being unspecified; the sort operations
  under the contract are relations between a store and a result.  The
  function `qsort` is the stable sort the program actually runs, and
  `run_sort_by_cgpa_asc`, `run_sort_by_cgpa_desc` and `run_sort_by_name` are
  the sort operations run with it.
* A store file is modelled by its content, the count followed by the records;
  `fwrite` and `fread` transfer whole records.
-/

namespace SRMS

/-! ## Constants and records -/

/-- Capacity of the `accounts` array (`#define MAX_USERS 1000`). -/
def MAX_USERS : Nat := 1000

/-- Capacity of the `students` array (`#define MAX_STUDENTS 2000`). -/
def MAX_STUDENTS : Nat := 2000

/-- The C struct `Account`. -/
structure Account where
  role : Char
  id : String
  username : String
  password : String
deriving DecidableEq, Repr

/-- The C struct `Student`: `marks` is the array `int marks[5]`. -/
structure Student where
  id : String
  name : String
  marks : Fin 5 → Int
  total : Int
  cgpa : ℚ
deriving DecidableEq

/-- The message an operation prints before it returns.
`ok` stands for the success message of the operation,
`capacityExceeded` for "Max accounts reached." / "Student storage full.",
`invalidRole` for "Invalid role.",
`duplicateId` for "Account with this id already exists." /
"Account with this id exists already." / "Student record already exists.",
`duplicateUsername` for "Username already taken." / "Username taken.",
`notFound` for "No such account." / "Student not found.",
`insufficientRecords` for "Not enough records to sort.",
`noRecords` for "No student records." -/
inductive Status where
  | ok
  | capacityExceeded
  | invalidRole
  | duplicateId
  | duplicateUsername
  | notFound
  | insufficientRecords
  | noRecords
deriving DecidableEq, Repr

/-! ## Single-precision arithmetic -/

/-- Nearest integer to `x`, ties going to the even neighbour. -/
def roundHalfEven (x : ℚ) : ℤ :=
  let f := ⌊x⌋
  let r := x - f
  if r < 1 / 2 then f else if 1 / 2 < r then f + 1 else if f % 2 = 0 then f else f + 1

/-- Rounding of an exact result to IEEE 754 binary32: 24 significant bits,
least exponent -126, round to nearest with ties to even.  Overflow to
infinity (magnitudes of 2^128 and above) is not modelled. -/
def f32round (x : ℚ) : ℚ :=
  if x = 0 then 0
  else
    let e : ℤ := max (Int.log 2 |x|) (-126)
    (roundHalfEven (x / 2 ^ (e - 23)) : ℚ) * 2 ^ (e - 23)

/-- Conversion of an `int` to `float`. -/
def f32_of_int (n : Int) : ℚ := f32round n

/-- Division of two `float` values. -/
def f32_div (a b : ℚ) : ℚ := f32round (a / b)

/-- Product of two `float` values. -/
def f32_mul (a b : ℚ) : ℚ := f32round (a * b)

/-! ## Loops and array primitives -/

/-- The loop `for (i = lo; i < hi; ++i) body(i)` acting on a state. -/
def for_loop {σ : Type} (lo hi : Nat) (body : Nat → σ → σ) (s : σ) : σ :=
  (List.range (hi - lo)).foldl (fun st k => body (lo + k) st) s

/-- The scan `for (i = start; i < count; ++i) if (p(arr[i])) return i; return -1;`
over the remaining elements of the array; `none` stands for `-1`. -/
def scan_from {α : Type} (p : α → Bool) : List α → Nat → Option Nat
  | [], _ => none
  | x :: xs, i => if p x then some i else scan_from p xs (i + 1)

/-- The assignment `arr[i] = arr[i+1]`. -/
def copy_down {α : Type} (i : Nat) (arr : List α) : List α :=
  match arr[i + 1]? with
  | some x => arr.set i x
  | none => arr

/-- The removal loop shared by `delete_account` and `delete_student_record`:
`for (i = idx; i < count - 1; ++i) arr[i] = arr[i+1]; count--;`. -/
def remove_at {α : Type} (arr : List α) (idx : Nat) : List α :=
  (for_loop idx (arr.length - 1) copy_down arr).take (arr.length - 1)

/-- The statement `arr[count++] = x` on an array of capacity `cap`: defined
only while `count < cap`. -/
def array_push {α : Type} (cap : Nat) (arr : List α) (x : α) : Option (List α) :=
  if arr.length < cap then some (arr ++ [x]) else none

/-! ## Finders -/

/-- Source: `find_account_by_username` (lines 65-70). -/
def find_account_by_username (accounts : List Account) (username : String) : Option Nat :=
  scan_from (fun a => decide (a.username = username)) accounts 0

/-- Source: `find_account_by_id` (lines 72-77). -/
def find_account_by_id (accounts : List Account) (id : String) : Option Nat :=
  scan_from (fun a => decide (a.id = id)) accounts 0

/-- Source: `find_student_by_id` (lines 79-84). -/
def find_student_by_id (students : List Student) (id : String) : Option Nat :=
  scan_from (fun s => decide (s.id = id)) students 0

/-! ## Grade calculation -/

/-- The sum computed by `for (int i = 0; i < 5; ++i) sum += s->marks[i];`. -/
def sum_marks (marks : Fin 5 → Int) : Int :=
  (List.finRange 5).foldl (fun sum i => sum + marks i) 0

/-- The expression `(sum / 500.0f) * 10.0f`: `sum` is converted to `float`,
divided by the `float` 500 and the quotient multiplied by the `float` 10. -/
def cgpa_of_total (sum : Int) : ℚ :=
  f32_mul (f32_div (f32_of_int sum) 500) 10

/-- Source: `calc_total_and_cgpa` (lines 86-91). -/
def calc_total_and_cgpa (s : Student) : Student :=
  let sum := sum_marks s.marks
  { s with total := sum, cgpa := cgpa_of_total sum }

/-! ## Account operations -/

/-- The default administrator built by `create_admin_if_none`. -/
def default_admin : Account :=
  { role := 'A', id := "admin", username := "admin", password := "admin" }

/-- Source: `create_admin_if_none` (lines 149-160). -/
def create_admin_if_none (accounts : List Account) : List Account :=
  if accounts.length = 0 then accounts ++ [default_admin] else accounts

/-- Source: `add_account` (lines 164-192).  `rolein` is the outcome of
`scanf(" %c", &rolec)`; the append is in bounds because of the first guard. -/
def add_account (accounts : List Account) (rolein : Option Char)
    (id username password : String) : Status × List Account :=
  if MAX_USERS ≤ accounts.length then (Status.capacityExceeded, accounts)
  else
    let rolec := rolein.getD 'S'
    if rolec ≠ 'A' ∧ rolec ≠ 'S' then (Status.invalidRole, accounts)
    else if (find_account_by_id accounts id).isSome then (Status.duplicateId, accounts)
    else if (find_account_by_username accounts username).isSome then
      (Status.duplicateUsername, accounts)
    else
      (Status.ok, accounts ++ [{ role := rolec, id := id, username := username,
                                 password := password }])

/-- Source: `delete_account` (lines 194-204). -/
def delete_account (accounts : List Account) (id : String) : Status × List Account :=
  match find_account_by_id accounts id with
  | none => (Status.notFound, accounts)
  | some idx => (Status.ok, remove_at accounts idx)

/-- Source: `signup_flow` (lines 454-469).  The function has no capacity
guard, so its `accounts[accounts_count++] = a` is an `array_push` that is
undefined on a full array. -/
def signup_flow (accounts : List Account) (id username password : String) :
    Option (Status × List Account) :=
  if (find_account_by_id accounts id).isSome then some (Status.duplicateId, accounts)
  else if (find_account_by_username accounts username).isSome then
    some (Status.duplicateUsername, accounts)
  else
    (array_push MAX_USERS accounts
      { role := 'S', id := id, username := username, password := password }).map
      (fun s => (Status.ok, s))

/-! ## Student operations -/

/-- The clamp `if (m < 0) m = 0; if (m > 100) m = 100;` of `add_student_record`. -/
def clamp_mark (m : Int) : Int :=
  let m1 := if m < 0 then 0 else m
  if m1 > 100 then 100 else m1

/-- Source: `add_student_record` (lines 216-241).  `input i` is the outcome of
the `scanf("%d", &m)` for subject `i` (`m = 0` when it fails).  The advisory
warning about a missing account (lines 222-224) changes neither the store nor
the control flow and is left out. -/
def add_student_record (students : List Student) (id name : String)
    (input : Fin 5 → Option Int) : Status × List Student :=
  if MAX_STUDENTS ≤ students.length then (Status.capacityExceeded, students)
  else if (find_student_by_id students id).isSome then (Status.duplicateId, students)
  else
    let s : Student :=
      { id := id, name := name, marks := fun i => clamp_mark ((input i).getD 0),
        total := 0, cgpa := 0 }
    (Status.ok, students ++ [calc_total_and_cgpa s])

/-- The marks left by the loop of `modify_student_record`: for subject `i` the
value read is `m = -1` when `scanf` fails, and it is stored only when
`m >= 0 && m <= 100`. -/
def modify_marks (old : Fin 5 → Int) (input : Fin 5 → Option Int) : Fin 5 → Int :=
  fun i =>
    let m := (input i).getD (-1)
    if 0 ≤ m ∧ m ≤ 100 then m else old i

/-- Source: `modify_student_record` (lines 243-262).  `Student *s =
&students[idx]` is the lookup `students[idx]?`; the index returned by the scan
is always valid, so its `none` branch is never taken. -/
def modify_student_record (students : List Student) (id : String)
    (input : Fin 5 → Option Int) : Status × List Student :=
  match find_student_by_id students id with
  | none => (Status.notFound, students)
  | some idx =>
    match students[idx]? with
    | none => (Status.notFound, students)
    | some s =>
      (Status.ok,
        students.set idx (calc_total_and_cgpa { s with marks := modify_marks s.marks input }))

/-- Source: `delete_student_record` (lines 264-274). -/
def delete_student_record (students : List Student) (id : String) : Status × List Student :=
  match find_student_by_id students id with
  | none => (Status.notFound, students)
  | some idx => (Status.ok, remove_at students idx)

/-! ## Sorting -/

/-- Source: `cmp_cgpa_asc` (lines 324-330). -/
def cmp_cgpa_asc (sa sb : Student) : Int :=
  if sa.cgpa < sb.cgpa then -1 else if sa.cgpa > sb.cgpa then 1 else 0

/-- Source: `cmp_cgpa_desc` (lines 331-333). -/
def cmp_cgpa_desc (sa sb : Student) : Int := -cmp_cgpa_asc sa sb

/-- The code of `tolower(c)` in the "C" locale. -/
def lower_code (c : Char) : Nat := c.toLower.toNat

/-- The C library's `strcasecmp` in the "C" locale: the two strings are
compared character by character after lower-casing; the result is the
difference of the first pair of codes that differ, the end of a string
counting as the code 0, and the comparison stops with 0 when both strings end
(a character of code 0 ends a string). -/
def strcasecmp : List Char → List Char → Int
  | [], [] => 0
  | [], b :: _ => 0 - (lower_code b : Int)
  | a :: _, [] => (lower_code a : Int)
  | a :: as, b :: bs =>
    if lower_code a = lower_code b then
      if lower_code a = 0 then 0 else strcasecmp as bs
    else (lower_code a : Int) - (lower_code b : Int)

/-- Source: `cmp_name_asc` (lines 334-338). -/
def cmp_name_asc (sa sb : Student) : Int := strcasecmp sa.name.toList sb.name.toList

/-- The key `cmp_name_asc` orders by: the codes of the lower-cased characters
of the name, up to the end of the string. -/
def name_key (s : Student) : List Nat :=
  (s.name.toList.map lower_code).takeWhile (fun n => decide (n ≠ 0))

/-- The contract of the C library's `qsort`: the array is rearranged into
ascending order of the comparison function; the order of elements that
compare equal is unspecified. -/
def qsort_result {α : Type} (cmp : α → α → Int) (before after : List α) : Prop :=
  after.Perm before ∧ after.Pairwise (fun a b => cmp a b ≤ 0)

/-- The three sort operations (lines 340-357), for the comparison function
`cmp`: with `students_count <= 1` the store is left alone, otherwise it is
handed to `qsort`. -/
def sort_students_with (cmp : Student → Student → Int) (students : List Student)
    (out : Status × List Student) : Prop :=
  if students.length ≤ 1 then out = (Status.insufficientRecords, students)
  else out.1 = Status.ok ∧ qsort_result cmp students out.2

/-- Source: `sort_students_by_cgpa_asc` (lines 340-345). -/
def sort_students_by_cgpa_asc (students : List Student) (out : Status × List Student) : Prop :=
  sort_students_with cmp_cgpa_asc students out

/-- Source: `sort_students_by_cgpa_desc` (lines 346-351). -/
def sort_students_by_cgpa_desc (students : List Student) (out : Status × List Student) : Prop :=
  sort_students_with cmp_cgpa_desc students out

/-- Source: `sort_students_by_name` (lines 352-357). -/
def sort_students_by_name (students : List Student) (out : Status × List Student) : Prop :=
  sort_students_with cmp_name_asc students out

/-! ## Sorting with the library's stable sort -/

/-- Account stores reached from the empty store by the bootstrap, the
administrator's add-account and delete-account, and signup. -/
inductive AccountReach : List Account → Prop
  | init : AccountReach []
  | bootstrap {s : List Account} : AccountReach s → AccountReach (create_admin_if_none s)
  | add {s : List Account} (rolein : Option Char) (id username password : String) :
      AccountReach s → AccountReach (add_account s rolein id username password).2
  | signup {s : List Account} (id username password : String) (st : Status)
      (t : List Account) :
      AccountReach s → signup_flow s id username password = some (st, t) → AccountReach t
  | delete {s : List Account} (id : String) :
      AccountReach s → AccountReach (delete_account s id).2

/-- Student stores reached from the empty store by add-student,
modify-student, delete-student and the three sort operations. -/
inductive StudentReach : List Student → Prop
  | init : StudentReach []
  | add {s : List Student} (id name : String) (input : Fin 5 → Option Int) :
      StudentReach s → StudentReach (add_student_record s id name input).2
  | modify {s : List Student} (id : String) (input : Fin 5 → Option Int) :
      StudentReach s → StudentReach (modify_student_record s id input).2
  | delete {s : List Student} (id : String) :
      StudentReach s → StudentReach (delete_student_record s id).2
  | sort_cgpa_asc {s : List Student} (out : Status × List Student) :
      StudentReach s → sort_students_by_cgpa_asc s out → StudentReach out.2
  | sort_cgpa_desc {s : List Student} (out : Status × List Student) :
      StudentReach s → sort_students_by_cgpa_desc s out → StudentReach out.2
  | sort_name {s : List Student} (out : Status × List Student) :
      StudentReach s → sort_students_by_name s out → StudentReach out.2

/-- A record is consistent when each mark lies in [0,100], `total` is the sum
of the marks and `cgpa` is the value `calc_total_and_cgpa` derives from it. -/
def Student.Consistent (r : Student) : Prop :=
  (∀ i, 0 ≤ r.marks i ∧ r.marks i ≤ 100) ∧
    r.total = r.marks 0 + r.marks 1 + r.marks 2 + r.marks 3 + r.marks 4 ∧
    r.cgpa = cgpa_of_total r.total

/-! ## Concrete stores used in the evaluations -/

/-- A four-digit roll number: `roll 42` is "0042". -/
def roll (i : Nat) : String :=
  String.mk [Nat.digitChar (i / 1000 % 10), Nat.digitChar (i / 100 % 10),
    Nat.digitChar (i / 10 % 10), Nat.digitChar (i % 10)]

/-- The student account signed up under roll number `i`. -/
def roll_account (i : Nat) : Account :=
  { role := 'S', id := roll i, username := roll i, password := "pw" }

/-- The store after the roll numbers 0 .. 999 have signed up. -/
def full_accounts : List Account := (List.range MAX_USERS).map roll_account

/-- The record add-student stores for roll number `i` when every mark entry
fails to parse. -/
def roll_student (i : Nat) : Student :=
  calc_total_and_cgpa
    { id := roll i, name := "student",
      marks := fun _ => clamp_mark ((none : Option Int).getD 0), total := 0, cgpa := 0 }

/-- The store after records for the roll numbers 0 .. 1999 have been added. -/
def full_students : List Student := (List.range MAX_STUDENTS).map roll_student

/-- The marks of the example scenario. -/
def example_marks : Fin 5 → Int := ![80, 90, 70, 60, 100]

/-- A record with the marks of the example scenario, before grading. -/
def example_student : Student :=
  { id := "s1", name := "Asha", marks := example_marks, total := 0, cgpa := 0 }

/-- The store after one add-student with the marks of the example scenario. -/
def example_store : List Student :=
  (add_student_record [] "s1" "Asha" (fun i => some (example_marks i))).2

/-! ## Analytics -/

/-- The value `students[i].cgpa` for an index inside the live prefix (the
default 0 is never used by `highest_lowest_cgpa`, whose indices are in range). -/
def cgpa_at (students : List Student) (i : Nat) : ℚ :=
  match students[i]? with
  | some s => s.cgpa
  | none => 0

/-- One iteration of the loop of `highest_lowest_cgpa` on the pair `(hi, lo)`:
`if (students[i].cgpa > students[hi].cgpa) hi = i;
 if (students[i].cgpa < students[lo].cgpa) lo = i;`. -/
def hi_lo_step (students : List Student) (i : Nat) (st : Nat × Nat) : Nat × Nat :=
  (if cgpa_at students i > cgpa_at students st.1 then i else st.1,
   if cgpa_at students i < cgpa_at students st.2 then i else st.2)

/-- Source: `highest_lowest_cgpa` (lines 310-321).  The result carries the
indices `(hi, lo)` of the two records the function displays. -/
def highest_lowest_cgpa (students : List Student) : Status × Option (Nat × Nat) :=
  if students.length = 0 then (Status.noRecords, none)
  else (Status.ok, some (for_loop 1 students.length (hi_lo_step students) (0, 0)))

/-! ## Login -/

/-- What `login_flow` does after reading the credentials: it prints "Invalid
username or password." (`invalid`), or it has found the account `me` and
enters the administrator menu, enters the student menu, or prints
"Unknown role.". -/
inductive LoginResult where
  | invalid
  | admin_menu (me : Account)
  | student_menu (me : Account)
  | unknown_role (me : Account)
deriving DecidableEq, Repr

/-- The account a login has authenticated, if any: the `me` of `login_flow`. -/
def LoginResult.account : LoginResult → Option Account
  | LoginResult.invalid => none
  | LoginResult.admin_menu me => some me
  | LoginResult.student_menu me => some me
  | LoginResult.unknown_role me => some me

/-- Source: `login_flow` (lines 471-486).  The lookup `accounts[idx]?` stands
for `accounts[idx]`; the index returned by the scan is always valid, so its
`none` branch is never taken. -/
def login_flow (accounts : List Account) (uname pass : String) : LoginResult :=
  match find_account_by_username accounts uname with
  | none => LoginResult.invalid
  | some idx =>
    match accounts[idx]? with
    | none => LoginResult.invalid
    | some me =>
      if me.password ≠ pass then LoginResult.invalid
      else if me.role = 'A' then LoginResult.admin_menu me
      else if me.role = 'S' then LoginResult.student_menu me
      else LoginResult.unknown_role me

/-! ## Persistence -/

/-- The content of a store file: the leading count written by
`fwrite(&count, sizeof(int), 1, fp)` followed by the records written
back-to-back. -/
structure FileImage (α : Type) where
  count : Int
  records : List α

/-- The body shared by `save_accounts` and `save_students`: when the file
cannot be opened for writing it is left as it was (`old`), otherwise it is
rewritten with the count and, when the count is positive, the records. -/
def save_store {α : Type} (writable : Bool) (old : Option (FileImage α)) (arr : List α) :
    Option (FileImage α) :=
  if writable then
    some { count := (arr.length : Int), records := if 0 < arr.length then arr else [] }
  else old

/-- The body shared by `load_accounts` and `load_students`, run on the
zero-initialised store of a fresh process with an array of capacity `cap`.  A
missing file gives the empty store.  Otherwise the count is read and, when it
is positive, that many records.  Images the program cannot have written fall
outside the model (`none`): a negative count, a count above the capacity of
the array (the read would run past its end), or fewer records than the count
announces. -/
def load_store {α : Type} (cap : Nat) (file : Option (FileImage α)) : Option (List α) :=
  match file with
  | none => some []
  | some img =>
    if img.count = 0 then some []
    else if 0 < img.count ∧ img.count ≤ (cap : Int) ∧ img.count ≤ (img.records.length : Int) then
      some (img.records.take img.count.toNat)
    else none

/-- Source: `save_accounts` (lines 108-119). -/
def save_accounts (writable : Bool) (old : Option (FileImage Account))
    (accounts : List Account) : Option (FileImage Account) :=
  save_store writable old accounts

/-- Source: `load_accounts` (lines 95-106). -/
def load_accounts (file : Option (FileImage Account)) : Option (List Account) :=
  load_store MAX_USERS file

/-- Source: `save_students` (lines 134-145). -/
def save_students (writable : Bool) (old : Option (FileImage Student))
    (students : List Student) : Option (FileImage Student) :=
  save_store writable old students

/-- Source: `load_students` (lines 121-132). -/
def load_students (file : Option (FileImage Student)) : Option (List Student) :=
  load_store MAX_STUDENTS file

/-! ## Lookup by id -/

/-- The record a lookup by id resolves to, as in `view_student_record_by_id`:
`idx = find_student_by_id(id)` followed by `students[idx]`; `none` when the
id is not found. -/
def student_of_id (students : List Student) (id : String) : Option Student :=
  match find_student_by_id students id with
  | none => none
  | some idx => students[idx]?

/-! ## Stores used in the evaluations of the sort operations -/

/-- The graded record of the example scenario (id "s1", name "Asha"). -/
def tie_a : Student := calc_total_and_cgpa example_student

/-- A second record with the same marks, hence the same cgpa, whose name
differs from that of `tie_a` only in letter case. -/
def tie_b : Student :=
  calc_total_and_cgpa
    { id := "s2", name := "ASHA", marks := example_marks, total := 0, cgpa := 0 }

/-- A store of two records that tie on cgpa and on case-insensitive name. -/
def tie_store : List Student := [tie_a, tie_b]

/-- A graded record with all marks 0. -/
def zero_student : Student :=
  calc_total_and_cgpa
    { id := "s3", name := "Bela", marks := fun _ => 0, total := 0, cgpa := 0 }

/-- A store of two records with different cgpa (0 and 8) and different names. -/
def ranked_store : List Student := [zero_student, tie_a]

/-! ## Single-precision rounding -/

theorem roundHalfEven_abs_sub_le (x : ℚ) : |((roundHalfEven x : ℤ) : ℚ) - x| ≤ 1 / 2 := by
  have h1 : (⌊x⌋ : ℚ) ≤ x := Int.floor_le x
  have h2 : x < ⌊x⌋ + 1 := Int.lt_floor_add_one x
  unfold roundHalfEven
  simp only
  split_ifs with a b c
  · rw [abs_le]; constructor <;> linarith
  · rw [abs_le]; push_cast; constructor <;> linarith
  · rw [abs_le]; constructor <;> linarith
  · rw [abs_le]; push_cast; constructor <;> linarith

theorem roundHalfEven_intCast (n : ℤ) : roundHalfEven (n : ℚ) = n := by
  unfold roundHalfEven
  simp

theorem roundHalfEven_eq_of_abs_lt {x : ℚ} {n : ℤ} (h : |x - n| < 1 / 2) :
    roundHalfEven x = n := by
  have hr := roundHalfEven_abs_sub_le x
  rw [abs_lt] at h
  rw [abs_le] at hr
  have h3 : ((roundHalfEven x : ℤ) : ℚ) - n < 1 := by linarith
  have h4 : (n : ℚ) - (roundHalfEven x : ℤ) < 1 := by linarith
  have h5 : roundHalfEven x - n < 1 := by exact_mod_cast h3
  have h6 : n - roundHalfEven x < 1 := by exact_mod_cast h4
  omega

theorem roundHalfEven_nonneg {x : ℚ} (hx : 0 ≤ x) : 0 ≤ roundHalfEven x := by
  have h0 : 0 ≤ ⌊x⌋ := Int.floor_nonneg.mpr hx
  unfold roundHalfEven
  simp only
  split_ifs <;> omega

theorem f32round_eq_of_log {x : ℚ} {e : ℤ} (hlo : (2 : ℚ) ^ e ≤ |x|)
    (hhi : |x| < (2 : ℚ) ^ (e + 1)) (he : -126 ≤ e) :
    f32round x = (roundHalfEven (x / 2 ^ (e - 23)) : ℚ) * 2 ^ (e - 23) := by
  have hpos : 0 < |x| := lt_of_lt_of_le (by positivity) hlo
  have hx : x ≠ 0 := abs_pos.mp hpos
  have h1 : e ≤ Int.log 2 |x| := by
    have := (Int.zpow_le_iff_le_log (b := 2) (by norm_num) hpos (x := e)).mp (by exact_mod_cast hlo)
    exact this
  have h2 : Int.log 2 |x| < e + 1 := by
    have := (Int.lt_zpow_iff_log_lt (b := 2) (by norm_num) hpos (x := e + 1)).mp (by exact_mod_cast hhi)
    exact this
  have h3 : Int.log 2 |x| = e := by omega
  unfold f32round
  rw [if_neg hx]
  simp only [h3, max_eq_left he]

theorem f32round_nonneg {x : ℚ} (hx : 0 ≤ x) : 0 ≤ f32round x := by
  unfold f32round
  split_ifs with h
  · exact le_refl 0
  · simp only
    have hu : (0 : ℚ) < 2 ^ (max (Int.log 2 |x|) (-126) - 23) := by positivity
    have : 0 ≤ roundHalfEven (x / 2 ^ (max (Int.log 2 |x|) (-126) - 23)) :=
      roundHalfEven_nonneg (div_nonneg hx hu.le)
    have : (0 : ℚ) ≤ (roundHalfEven (x / 2 ^ (max (Int.log 2 |x|) (-126) - 23)) : ℤ) := by
      exact_mod_cast this
    positivity

theorem f32round_abs_sub_le {x : ℚ} (hx : (2 : ℚ) ^ (-126 : ℤ) ≤ |x|) :
    |f32round x - x| ≤ |x| * (1 / 2 ^ 24) := by
  have hpos : 0 < |x| := lt_of_lt_of_le (by positivity) hx
  have he : -126 ≤ Int.log 2 |x| :=
    (Int.zpow_le_iff_le_log (b := 2) (by norm_num) hpos (x := -126)).mp (by exact_mod_cast hx)
  have hlo : (2 : ℚ) ^ (Int.log 2 |x|) ≤ |x| := by
    have := Int.zpow_log_le_self (b := 2) (by norm_num) hpos
    exact_mod_cast this
  have hhi : |x| < (2 : ℚ) ^ (Int.log 2 |x| + 1) := by
    have := Int.lt_zpow_succ_log_self (b := 2) (by norm_num) |x|
    exact_mod_cast this
  rw [f32round_eq_of_log hlo hhi he]
  set e := Int.log 2 |x| with hedef
  have hu : (0 : ℚ) < 2 ^ (e - 23) := by positivity
  have hr := roundHalfEven_abs_sub_le (x / 2 ^ (e - 23))
  have hsplit : ((roundHalfEven (x / 2 ^ (e - 23)) : ℤ) : ℚ) * 2 ^ (e - 23) - x
      = (((roundHalfEven (x / 2 ^ (e - 23)) : ℤ) : ℚ) - x / 2 ^ (e - 23)) * 2 ^ (e - 23) := by
    field_simp
  rw [hsplit, abs_mul, abs_of_pos hu]
  have h24 : (2 : ℚ) ^ (e - 23) = 2 ^ e * (1 / 2 ^ 23) := by
    rw [zpow_sub₀ (by norm_num : (2 : ℚ) ≠ 0)]
    norm_num
    ring
  calc |((roundHalfEven (x / 2 ^ (e - 23)) : ℤ) : ℚ) - x / 2 ^ (e - 23)| * 2 ^ (e - 23)
      ≤ 1 / 2 * 2 ^ (e - 23) := by gcongr
    _ = 2 ^ e * (1 / 2 ^ 24) := by rw [h24]; ring
    _ ≤ |x| * (1 / 2 ^ 24) := by gcongr

theorem f32round_intCast {n : ℤ} (hn : |n| < 2 ^ 24) : f32round (n : ℚ) = n := by
  by_cases h0 : n = 0
  · subst h0; simp [f32round]
  have hq : (n : ℚ) ≠ 0 := by exact_mod_cast h0
  have hpos : (0 : ℚ) < |(n : ℚ)| := abs_pos.mpr hq
  have h1 : (1 : ℚ) ≤ |(n : ℚ)| := by
    have : (1 : ℤ) ≤ |n| := Int.one_le_abs h0
    exact_mod_cast this
  have he0 : 0 ≤ Int.log 2 |(n : ℚ)| :=
    (Int.zpow_le_iff_le_log (b := 2) (by norm_num) hpos (x := 0)).mp (by simpa using h1)
  have he24 : Int.log 2 |(n : ℚ)| < 24 := by
    apply (Int.lt_zpow_iff_log_lt (b := 2) (by norm_num) hpos (x := 24)).mp
    have : |(n : ℚ)| < 2 ^ 24 := by exact_mod_cast hn
    exact_mod_cast this
  unfold f32round
  rw [if_neg hq]
  simp only
  rw [max_eq_left (by omega)]
  obtain ⟨k, hk⟩ : ∃ k : ℕ, Int.log 2 |(n : ℚ)| - 23 = -(k : ℤ) :=
    ⟨(23 - Int.log 2 |(n : ℚ)|).toNat, by omega⟩
  rw [hk, zpow_neg, zpow_natCast]
  have hcast : (n : ℚ) / (2 ^ k)⁻¹ = ((n * 2 ^ k : ℤ) : ℚ) := by
    push_cast
    field_simp
  rw [hcast, roundHalfEven_intCast]
  push_cast
  field_simp

/-! ## Grade calculation -/

theorem sum_marks_eq (m : Fin 5 → Int) : sum_marks m = m 0 + m 1 + m 2 + m 3 + m 4 := by
  have h : sum_marks m = 0 + m 0 + m 1 + m 2 + m 3 + m 4 := rfl
  rw [h, zero_add]

theorem f32round_eval {x : ℚ} (e n : ℤ) (hlo : (2 : ℚ) ^ e ≤ |x|)
    (hhi : |x| < (2 : ℚ) ^ (e + 1)) (he : -126 ≤ e) (hn : |x / 2 ^ (e - 23) - n| < 1 / 2) :
    f32round x = (n : ℚ) * 2 ^ (e - 23) := by
  rw [f32round_eq_of_log hlo hhi he, roundHalfEven_eq_of_abs_lt hn]

theorem cgpa_of_total_400 : cgpa_of_total 400 = 8 := by
  have h400 : f32_of_int 400 = 400 := by
    have := f32round_intCast (n := 400) (by norm_num)
    simpa [f32_of_int] using this
  have hdiv : f32_div 400 500 = 13421773 / 2 ^ 24 := by
    unfold f32_div
    rw [f32round_eval (-1) 13421773 (by norm_num [abs_of_pos]) (by norm_num [abs_of_pos])
      (by norm_num) (by norm_num [abs_lt])]
    norm_num
  have hmul : f32_mul (13421773 / 2 ^ 24) 10 = 8 := by
    unfold f32_mul
    rw [f32round_eval 3 8388608 (by norm_num [abs_of_pos]) (by norm_num [abs_of_pos])
      (by norm_num) (by norm_num [abs_lt])]
    norm_num
  unfold cgpa_of_total
  rw [h400, hdiv, hmul]

theorem cgpa_of_total_1 : cgpa_of_total 1 = 10737419 / 2 ^ 29 := by
  have h1 : f32_of_int 1 = 1 := by
    have := f32round_intCast (n := 1) (by norm_num)
    simpa [f32_of_int] using this
  have hdiv : f32_div 1 500 = 8589935 / 2 ^ 32 := by
    unfold f32_div
    rw [f32round_eval (-9) 8589935 (by norm_num [abs_of_pos]) (by norm_num [abs_of_pos])
      (by norm_num) (by norm_num [abs_lt])]
    norm_num
  have hmul : f32_mul (8589935 / 2 ^ 32) 10 = 10737419 / 2 ^ 29 := by
    unfold f32_mul
    rw [f32round_eval (-6) 10737419 (by norm_num [abs_of_pos]) (by norm_num [abs_of_pos])
      (by norm_num) (by norm_num [abs_lt])]
    norm_num
  unfold cgpa_of_total
  rw [h1, hdiv, hmul]

theorem f32_of_int_small {t : ℤ} (h0 : 0 ≤ t) (h500 : t ≤ 500) : f32_of_int t = t := by
  unfold f32_of_int
  apply f32round_intCast
  rw [abs_of_nonneg h0]
  omega

theorem cgpa_of_total_zero : cgpa_of_total 0 = 0 := by
  simp [cgpa_of_total, f32_of_int, f32_div, f32_mul, f32round]

theorem cgpa_of_total_500 : cgpa_of_total 500 = 10 := by
  have h1 : f32round (1 : ℚ) = 1 := by
    have := f32round_intCast (n := 1) (by norm_num)
    simpa using this
  have h10 : f32round (10 : ℚ) = 10 := by
    have := f32round_intCast (n := 10) (by norm_num)
    simpa using this
  have h500 : f32_of_int 500 = 500 := f32_of_int_small (by norm_num) (by norm_num)
  unfold cgpa_of_total
  rw [h500]
  unfold f32_div f32_mul
  norm_num [h1, h10]

theorem cgpa_of_total_error {t : ℤ} (h1 : 1 ≤ t) (h500 : t ≤ 500) :
    |cgpa_of_total t - (t : ℚ) / 500 * 10| ≤ (t : ℚ) / 500 * 10 * (1 / 2 ^ 22) := by
  have ht : f32_of_int t = t := f32_of_int_small (by omega) h500
  have ha1 : (1 : ℚ) ≤ (t : ℚ) := by exact_mod_cast h1
  have ha2 : (t : ℚ) ≤ 500 := by exact_mod_cast h500
  unfold cgpa_of_total
  rw [ht]
  unfold f32_div f32_mul
  set x : ℚ := (t : ℚ) / 500 with hx
  have hx1 : 1 / 500 ≤ x := by rw [hx]; linarith
  have hx2 : x ≤ 1 := by rw [hx]; linarith
  have hxpos : 0 < x := by linarith
  have hX := f32round_abs_sub_le (x := x) (by
    rw [abs_of_pos hxpos]
    refine le_trans ?_ hx1
    rw [zpow_neg]
    norm_num)
  rw [abs_of_pos hxpos, abs_le] at hX
  set X := f32round x with hXdef
  have hXlo : x * (1 - 1 / 2 ^ 24) ≤ X := by linarith [hX.1]
  have hXhi : X ≤ x * (1 + 1 / 2 ^ 24) := by linarith [hX.2]
  have hXpos : 0 < X := by
    have : 0 < x * (1 - 1 / 2 ^ 24) := by positivity
    linarith
  have hypos : 0 < X * 10 := by positivity
  have hY := f32round_abs_sub_le (x := X * 10) (by
    rw [abs_of_pos hypos]
    have h3 : (1 : ℚ) / 100 ≤ X * 10 := by
      have : (1 : ℚ) / 500 * (1 - 1 / 2 ^ 24) ≤ x * (1 - 1 / 2 ^ 24) := by gcongr
      norm_num at this ⊢
      linarith
    refine le_trans ?_ h3
    rw [zpow_neg]
    norm_num)
  rw [abs_of_pos hypos, abs_le] at hY
  rw [abs_le]
  constructor
  · nlinarith [hY.1, hY.2, hXlo, hXhi]
  · nlinarith [hY.1, hY.2, hXlo, hXhi]

theorem cgpa_of_total_range {t : ℤ} (h0 : 0 ≤ t) (h500 : t ≤ 500) :
    0 ≤ cgpa_of_total t ∧ cgpa_of_total t ≤ 10 := by
  constructor
  · unfold cgpa_of_total f32_mul f32_div
    rw [f32_of_int_small h0 h500]
    apply f32round_nonneg
    apply mul_nonneg _ (by norm_num)
    apply f32round_nonneg
    have : (0 : ℚ) ≤ t := by exact_mod_cast h0
    positivity
  · rcases eq_or_lt_of_le h500 with h | h
    · rw [h, cgpa_of_total_500]
    · rcases eq_or_lt_of_le h0 with h' | h'
      · rw [← h', cgpa_of_total_zero]; norm_num
      · have herr := cgpa_of_total_error (t := t) (by omega) h500
        rw [abs_le] at herr
        have ha2 : (t : ℚ) ≤ 499 := by
          have : t ≤ 499 := by omega
          exact_mod_cast this
        have ha1 : (0 : ℚ) ≤ t := by exact_mod_cast h0
        norm_num at herr ⊢
        linarith [herr.2]

/-! ## Scans and the removal loop -/

theorem scan_from_eq_none_iff {α : Type} (p : α → Bool) (xs : List α) (i : Nat) :
    scan_from p xs i = none ↔ ∀ x ∈ xs, p x = false := by
  induction xs generalizing i with
  | nil => simp [scan_from]
  | cons a as ih =>
    unfold scan_from
    by_cases h : p a = true
    · simp [h]
    · simp [h, ih]

theorem scan_from_eq_some_iff {α : Type} (p : α → Bool) (xs : List α) (i j : Nat) :
    scan_from p xs i = some j ↔
      ∃ pre x post, xs = pre ++ x :: post ∧ j = i + pre.length ∧ p x = true ∧
        ∀ y ∈ pre, p y = false := by
  induction xs generalizing i with
  | nil => simp [scan_from]
  | cons a as ih =>
    unfold scan_from
    by_cases h : p a = true
    · rw [if_pos h]
      constructor
      · intro hj
        refine ⟨[], a, as, rfl, ?_, h, by simp⟩
        simpa using (Option.some.inj hj).symm
      · rintro ⟨pre, x, post, hxs, hj, hx, hpre⟩
        cases pre with
        | nil => simp [hj]
        | cons b bs =>
          simp only [List.cons_append, List.cons.injEq] at hxs
          have := hpre b (by simp)
          rw [← hxs.1, h] at this
          cases this
    · rw [if_neg h, ih]
      constructor
      · rintro ⟨pre, x, post, hxs, hj, hx, hpre⟩
        refine ⟨a :: pre, x, post, by simp [hxs], by simp [hj]; omega, hx, ?_⟩
        intro y hy
        rcases List.mem_cons.mp hy with rfl | hy
        · simpa using h
        · exact hpre y hy
      · rintro ⟨pre, x, post, hxs, hj, hx, hpre⟩
        cases pre with
        | nil =>
          simp only [List.nil_append, List.cons.injEq] at hxs
          rw [hxs.1] at h
          exact absurd hx h
        | cons b bs =>
          simp only [List.cons_append, List.cons.injEq] at hxs
          refine ⟨bs, x, post, hxs.2, by simp at hj; omega, hx, ?_⟩
          intro y hy
          exact hpre y (List.mem_cons_of_mem _ hy)

theorem scan_from_isSome_iff {α : Type} (p : α → Bool) (xs : List α) (i : Nat) :
    (scan_from p xs i).isSome = true ↔ ∃ x ∈ xs, p x = true := by
  rw [← Option.ne_none_iff_isSome, Ne, scan_from_eq_none_iff]
  push_neg
  simp

theorem set_length_append {α : Type} (pre : List α) (x y : α) (post : List α) :
    (pre ++ x :: post).set pre.length y = pre ++ y :: post := by
  induction pre with
  | nil => rfl
  | cons a as ih => simp [ih]

theorem getElem?_length_append {α : Type} (pre : List α) (x : α) (post : List α) :
    (pre ++ x :: post)[pre.length]? = some x := by
  rw [List.getElem?_append_right (le_refl _)]
  simp

theorem eraseIdx_length_append {α : Type} (pre : List α) (x : α) (post : List α) :
    (pre ++ x :: post).eraseIdx pre.length = pre ++ post := by
  induction pre with
  | nil => rfl
  | cons a as ih => simp [ih]

/-- State of the removal loop after `j` iterations. -/
theorem for_loop_copy_down {α : Type} (arr : List α) (idx j : Nat) (hj : idx + j + 1 ≤ arr.length) :
    ((List.range j).foldl (fun st k => copy_down (idx + k) st) arr).length = arr.length ∧
    ∀ m, ((List.range j).foldl (fun st k => copy_down (idx + k) st) arr)[m]? =
      if idx ≤ m ∧ m < idx + j then arr[m + 1]? else arr[m]? := by
  induction j with
  | zero =>
    refine ⟨rfl, fun m => ?_⟩
    have : ¬ (idx ≤ m ∧ m < idx + 0) := by omega
    rw [if_neg this]
    rfl
  | succ j ih =>
    obtain ⟨hlen, hget⟩ := ih (by omega)
    rw [List.range_succ, List.foldl_append]
    simp only [List.foldl_cons, List.foldl_nil]
    set st := (List.range j).foldl (fun st k => copy_down (idx + k) st) arr with hst
    have hnext : st[idx + j + 1]? = arr[idx + j + 1]? := by
      rw [hget]
      have : ¬ (idx ≤ idx + j + 1 ∧ idx + j + 1 < idx + j) := by omega
      simp [this]
    have hsome : arr[idx + j + 1]? = some (arr[idx + j + 1]) :=
      List.getElem?_eq_getElem (by omega)
    unfold copy_down
    rw [hnext, hsome]
    simp only
    refine ⟨by simp [hlen], fun m => ?_⟩
    rw [List.getElem?_set]
    by_cases hm : idx + j = m
    · subst hm
      have h1 : idx + j < st.length := by omega
      have h2 : idx ≤ idx + j ∧ idx + j < idx + (j + 1) := by omega
      simp [h1, h2, hsome]
    · rw [if_neg hm, hget]
      by_cases hc : idx ≤ m ∧ m < idx + j
      · have : idx ≤ m ∧ m < idx + (j + 1) := by omega
        simp [hc, this]
      · have : ¬ (idx ≤ m ∧ m < idx + (j + 1)) := by omega
        simp [hc, this]

theorem remove_at_eq_eraseIdx {α : Type} (arr : List α) (idx : Nat) (h : idx < arr.length) :
    remove_at arr idx = arr.eraseIdx idx := by
  unfold remove_at for_loop
  obtain ⟨hlen, hget⟩ := for_loop_copy_down arr idx (arr.length - 1 - idx) (by omega)
  apply List.ext_getElem?
  intro m
  rw [List.getElem?_take, List.getElem?_eraseIdx]
  by_cases hm : m < arr.length - 1
  · rw [if_pos hm, hget]
    by_cases h1 : m < idx
    · have : ¬ (idx ≤ m ∧ m < idx + (arr.length - 1 - idx)) := by omega
      simp [h1, this]
    · have : idx ≤ m ∧ m < idx + (arr.length - 1 - idx) := by omega
      simp [h1, this]
  · rw [if_neg hm]
    have h1 : ¬ m < idx := by omega
    rw [if_neg h1]
    exact (List.getElem?_eq_none (by omega)).symm

/-! ## Account store -/

theorem find_account_by_id_isSome_iff (s : List Account) (id : String) :
    (find_account_by_id s id).isSome = true ↔ ∃ a ∈ s, a.id = id := by
  unfold find_account_by_id
  rw [scan_from_isSome_iff]
  simp

theorem find_account_by_username_isSome_iff (s : List Account) (username : String) :
    (find_account_by_username s username).isSome = true ↔ ∃ a ∈ s, a.username = username := by
  unfold find_account_by_username
  rw [scan_from_isSome_iff]
  simp

theorem find_student_by_id_isSome_iff (s : List Student) (id : String) :
    (find_student_by_id s id).isSome = true ↔ ∃ r ∈ s, r.id = id := by
  unfold find_student_by_id
  rw [scan_from_isSome_iff]
  simp

theorem scan_from_lt_length {α : Type} (p : α → Bool) (xs : List α) (j : Nat)
    (h : scan_from p xs 0 = some j) : j < xs.length := by
  obtain ⟨pre, x, post, hxs, hj, _, _⟩ := (scan_from_eq_some_iff p xs 0 j).mp h
  rw [hxs, hj]
  simp

theorem delete_account_sublist (s : List Account) (id : String) :
    (delete_account s id).2.Sublist s := by
  unfold delete_account
  cases h : find_account_by_id s id with
  | none => exact List.Sublist.refl s
  | some idx =>
    simp only
    rw [remove_at_eq_eraseIdx s idx (scan_from_lt_length _ _ _ h)]
    exact List.eraseIdx_sublist s idx

/-- Uniqueness of usernames and of ids, as absence of duplicates. -/
theorem account_unique_bootstrap (s : List Account)
    (h : (s.map Account.username).Nodup ∧ (s.map Account.id).Nodup) :
    ((create_admin_if_none s).map Account.username).Nodup ∧
      ((create_admin_if_none s).map Account.id).Nodup := by
  unfold create_admin_if_none
  split_ifs with h0
  · have : s = [] := List.length_eq_zero.mp h0
    subst this
    simp
  · exact h

theorem nodup_map_append_singleton {α β : Type} (f : α → β) (s : List α) (a : α)
    (h : (s.map f).Nodup) (hfresh : ∀ x ∈ s, f x ≠ f a) : ((s ++ [a]).map f).Nodup := by
  rw [List.map_append, List.nodup_append]
  refine ⟨h, by simp, ?_⟩
  intro b hb1 hb2
  simp only [List.map_cons, List.map_nil, List.mem_singleton] at hb2
  obtain ⟨x, hx, rfl⟩ := List.mem_map.mp hb1
  exact hfresh x hx hb2

theorem add_account_cases (s : List Account) (rolein : Option Char)
    (id username password : String) :
    ((add_account s rolein id username password).2 = s ∧
        (add_account s rolein id username password).1 ≠ Status.ok) ∨
      (s.length < MAX_USERS ∧ (rolein.getD 'S' = 'A' ∨ rolein.getD 'S' = 'S') ∧
        (∀ x ∈ s, x.id ≠ id) ∧ (∀ x ∈ s, x.username ≠ username) ∧
        add_account s rolein id username password =
          (Status.ok, s ++ [{ role := rolein.getD 'S', id := id, username := username,
                              password := password }])) := by
  unfold add_account
  dsimp only
  split_ifs with h1 h2 h3 h4
  · left; simp
  · left; simp
  · left; simp
  · left; simp
  · right
    refine ⟨by omega, ?_, ?_, ?_, rfl⟩
    · by_contra hc
      push_neg at hc
      exact h2 hc
    · intro x hx he
      exact h3 ((find_account_by_id_isSome_iff s id).mpr ⟨x, hx, he⟩)
    · intro x hx he
      exact h4 ((find_account_by_username_isSome_iff s username).mpr ⟨x, hx, he⟩)

theorem account_unique_add (s : List Account) (rolein : Option Char)
    (id username password : String)
    (h : (s.map Account.username).Nodup ∧ (s.map Account.id).Nodup) :
    ((add_account s rolein id username password).2.map Account.username).Nodup ∧
      ((add_account s rolein id username password).2.map Account.id).Nodup := by
  rcases add_account_cases s rolein id username password with ⟨h1, -⟩ | ⟨-, -, hid, hun, heq⟩
  · rw [h1]; exact h
  · rw [heq]
    exact ⟨nodup_map_append_singleton _ s _ h.1 hun, nodup_map_append_singleton _ s _ h.2 hid⟩

theorem account_unique_signup (s t : List Account) (id username password : String)
    (st : Status) (hstep : signup_flow s id username password = some (st, t))
    (h : (s.map Account.username).Nodup ∧ (s.map Account.id).Nodup) :
    (t.map Account.username).Nodup ∧ (t.map Account.id).Nodup := by
  unfold signup_flow at hstep
  split_ifs at hstep with h3 h4
  · cases hstep; exact h
  · cases hstep; exact h
  · unfold array_push at hstep
    split_ifs at hstep with hcap
    · simp only [Option.map_some', Option.some.injEq, Prod.mk.injEq] at hstep
      obtain ⟨-, rfl⟩ := hstep
      have hid : ∀ x ∈ s, x.id ≠ id := by
        intro x hx he
        exact h3 ((find_account_by_id_isSome_iff s id).mpr ⟨x, hx, he⟩)
      have hun : ∀ x ∈ s, x.username ≠ username := by
        intro x hx he
        exact h4 ((find_account_by_username_isSome_iff s username).mpr ⟨x, hx, he⟩)
      exact ⟨nodup_map_append_singleton _ s _ h.1 hun, nodup_map_append_singleton _ s _ h.2 hid⟩
    · simp at hstep

theorem account_unique_delete (s : List Account) (id : String)
    (h : (s.map Account.username).Nodup ∧ (s.map Account.id).Nodup) :
    ((delete_account s id).2.map Account.username).Nodup ∧
      ((delete_account s id).2.map Account.id).Nodup :=
  ⟨h.1.sublist ((delete_account_sublist s id).map _),
    h.2.sublist ((delete_account_sublist s id).map _)⟩

theorem account_reach_nodup (s : List Account) (h : AccountReach s) :
    (s.map Account.username).Nodup ∧ (s.map Account.id).Nodup := by
  induction h with
  | init => simp
  | bootstrap _ ih => exact account_unique_bootstrap _ ih
  | add rolein id username password _ ih => exact account_unique_add _ _ _ _ _ ih
  | signup id username password st t _ hstep ih =>
    exact account_unique_signup _ _ _ _ _ _ hstep ih
  | delete id _ ih => exact account_unique_delete _ _ ih

theorem account_reach_length_le (s : List Account) (h : AccountReach s) :
    s.length ≤ MAX_USERS := by
  induction h with
  | init => simp
  | @bootstrap s _ ih =>
    unfold create_admin_if_none
    split_ifs with h0
    · rw [List.length_append, h0]; simp [MAX_USERS]
    · exact ih
  | @add s rolein id username password _ ih =>
    rcases add_account_cases s rolein id username password with ⟨h1, -⟩ | ⟨hlt, -, -, -, heq⟩
    · rw [h1]; exact ih
    · rw [heq, List.length_append]
      simpa using hlt
  | signup id username password st t _ hstep ih =>
    unfold signup_flow at hstep
    split_ifs at hstep with h3 h4
    · cases hstep; exact ih
    · cases hstep; exact ih
    · unfold array_push at hstep
      split_ifs at hstep with hcap
      · simp only [Option.map_some', Option.some.injEq, Prod.mk.injEq] at hstep
        obtain ⟨-, rfl⟩ := hstep
        rw [List.length_append]
        simpa using hcap
      · simp at hstep
  | delete id _ ih => exact le_trans (delete_account_sublist _ id).length_le ih

theorem add_account_at_capacity (s : List Account) (rolein : Option Char)
    (id username password : String) (h : MAX_USERS ≤ s.length) :
    add_account s rolein id username password = (Status.capacityExceeded, s) := by
  unfold add_account
  rw [if_pos h]

/-- Along runs in which every operation has a defined result, no two accounts
at distinct positions share a username and no two share an id. -/
theorem account_reach_pairwise (s : List Account) (h : AccountReach s) :
    s.Pairwise (fun a b => a.username ≠ b.username) ∧
      s.Pairwise (fun a b => a.id ≠ b.id) := by
  have := account_reach_nodup s h
  exact ⟨List.pairwise_map.mp this.1, List.pairwise_map.mp this.2⟩

/-- C2 (as stated) fails: the only stored account has username "admin", and
adding an account with username "admin" and id "admin" is rejected with
DuplicateId, by add-account and by signup alike. -/
theorem duplicate_username_reported_as_duplicate_id :
    (∃ a ∈ create_admin_if_none [], a.username = "admin") ∧
    add_account (create_admin_if_none []) (some 'S') "admin" "admin" "pw" =
      (Status.duplicateId, create_admin_if_none []) ∧
    signup_flow (create_admin_if_none []) "admin" "admin" "pw" =
      some (Status.duplicateId, create_admin_if_none []) := by
  decide

/-- C2 (amended). When the username of the new account is already stored,
add-account and signup both fail and leave the store unchanged.  The failure
reported is that of the first guard that fires: for add-account
CapacityExceeded on a full store, else InvalidRole when the role is neither
'A' nor 'S', else DuplicateId when the id is stored too, else
DuplicateUsername; for signup DuplicateId when the id is stored too, else
DuplicateUsername. -/
theorem add_duplicate_username_rejected (s : List Account) (rolein : Option Char)
    (id username password : String) (h : ∃ a ∈ s, a.username = username) :
    (add_account s rolein id username password).2 = s ∧
    (MAX_USERS ≤ s.length →
      (add_account s rolein id username password).1 = Status.capacityExceeded) ∧
    (s.length < MAX_USERS → (rolein.getD 'S' ≠ 'A' ∧ rolein.getD 'S' ≠ 'S') →
      (add_account s rolein id username password).1 = Status.invalidRole) ∧
    (s.length < MAX_USERS → (rolein.getD 'S' = 'A' ∨ rolein.getD 'S' = 'S') →
      (∃ a ∈ s, a.id = id) →
      (add_account s rolein id username password).1 = Status.duplicateId) ∧
    (s.length < MAX_USERS → (rolein.getD 'S' = 'A' ∨ rolein.getD 'S' = 'S') →
      (∀ a ∈ s, a.id ≠ id) →
      (add_account s rolein id username password).1 = Status.duplicateUsername) ∧
    ((∃ a ∈ s, a.id = id) →
      signup_flow s id username password = some (Status.duplicateId, s)) ∧
    ((∀ a ∈ s, a.id ≠ id) →
      signup_flow s id username password = some (Status.duplicateUsername, s)) := by
  have hu : (find_account_by_username s username).isSome = true :=
    (find_account_by_username_isSome_iff s username).mpr h
  refine ⟨?_, ?_, ?_, ?_, ?_, ?_, ?_⟩
  · unfold add_account
    dsimp only
    split_ifs <;> rfl
  · intro hcap
    unfold add_account
    rw [if_pos hcap]
  · intro hlt hrole
    unfold add_account
    dsimp only
    rw [if_neg (by omega), if_pos hrole]
  · intro hlt hrole hex
    have hnot : ¬ (rolein.getD 'S' ≠ 'A' ∧ rolein.getD 'S' ≠ 'S') := by
      rintro ⟨h1, h2⟩
      rcases hrole with hr | hr
      · exact h1 hr
      · exact h2 hr
    unfold add_account
    dsimp only
    rw [if_neg (by omega), if_neg hnot, if_pos ((find_account_by_id_isSome_iff s id).mpr hex)]
  · intro hlt hrole hfresh
    have hnot : ¬ (rolein.getD 'S' ≠ 'A' ∧ rolein.getD 'S' ≠ 'S') := by
      rintro ⟨h1, h2⟩
      rcases hrole with hr | hr
      · exact h1 hr
      · exact h2 hr
    have hid : ¬ (find_account_by_id s id).isSome = true := by
      rw [find_account_by_id_isSome_iff]
      rintro ⟨a, ha, he⟩
      exact hfresh a ha he
    unfold add_account
    dsimp only
    rw [if_neg (by omega), if_neg hnot, if_neg hid, if_pos hu]
  · intro hex
    unfold signup_flow
    rw [if_pos ((find_account_by_id_isSome_iff s id).mpr hex)]
  · intro hfresh
    have hid : ¬ (find_account_by_id s id).isSome = true := by
      rw [find_account_by_id_isSome_iff]
      rintro ⟨a, ha, he⟩
      exact hfresh a ha he
    unfold signup_flow
    rw [if_neg hid, if_pos hu]

theorem add_duplicate_username_rejected_witness :
    (∃ a ∈ [default_admin], a.username = "admin") ∧
    (add_account [default_admin] (some 'S') "r1" "admin" "pw").2 = [default_admin] ∧
    (add_account [default_admin] (some 'S') "r1" "admin" "pw").1 = Status.duplicateUsername ∧
    signup_flow [default_admin] "r1" "admin" "pw" =
      some (Status.duplicateUsername, [default_admin]) :=
  have hex : ∃ a ∈ [default_admin], a.username = "admin" :=
    ⟨default_admin, List.mem_singleton_self _, rfl⟩
  have h := add_duplicate_username_rejected [default_admin] (some 'S') "r1" "admin" "pw" hex
  have hfresh : ∀ a ∈ [default_admin], a.id ≠ "r1" := by
    intro a ha
    rw [List.mem_singleton.mp ha]
    decide
  ⟨hex, h.1, h.2.2.2.2.1 (by decide) (Or.inr rfl) hfresh, h.2.2.2.2.2.2 hfresh⟩

theorem digitChar_inj : ∀ a : Fin 10, ∀ b : Fin 10,
    Nat.digitChar a.val = Nat.digitChar b.val → a = b := by
  decide

theorem digitChar_mod_inj {a b : Nat} (h : Nat.digitChar (a % 10) = Nat.digitChar (b % 10)) :
    a % 10 = b % 10 := by
  have := digitChar_inj ⟨a % 10, Nat.mod_lt _ (by norm_num)⟩ ⟨b % 10, Nat.mod_lt _ (by norm_num)⟩ h
  exact Fin.mk.inj_iff.mp this

theorem roll_inj {i j : Nat} (hi : i < 10000) (hj : j < 10000) (h : roll i = roll j) : i = j := by
  have h := congrArg String.data h
  simp only [roll, List.cons.injEq, and_true] at h
  obtain ⟨h3, h2, h1, h0⟩ := h
  have e3 := digitChar_mod_inj h3
  have e2 := digitChar_mod_inj h2
  have e1 := digitChar_mod_inj h1
  have e0 := digitChar_mod_inj h0
  omega

theorem roll_ne_new (i : Nat) : roll i ≠ "new" := by
  intro h
  have := congrArg String.length h
  simp [roll, String.length] at this

theorem roll_accounts_reach (n : Nat) (hn : n ≤ MAX_USERS) :
    AccountReach ((List.range n).map roll_account) := by
  induction n with
  | zero => exact AccountReach.init
  | succ n ih =>
    have hprev := ih (by omega)
    refine AccountReach.signup (roll n) (roll n) "pw" Status.ok _ hprev ?_
    have hne : ∀ a ∈ (List.range n).map roll_account, a.id ≠ roll n ∧ a.username ≠ roll n := by
      intro a ha
      obtain ⟨i, hi, rfl⟩ := List.mem_map.mp ha
      have hi : i < n := List.mem_range.mp hi
      have : roll i ≠ roll n := fun h =>
        absurd (roll_inj (by unfold MAX_USERS at hn; omega) (by unfold MAX_USERS at hn; omega) h)
          (by omega)
      exact ⟨this, this⟩
    have h1 : (find_account_by_id ((List.range n).map roll_account) (roll n)).isSome = false := by
      rw [Bool.eq_false_iff, Ne, find_account_by_id_isSome_iff]
      rintro ⟨a, ha, he⟩
      exact (hne a ha).1 he
    have h2 : (find_account_by_username ((List.range n).map roll_account) (roll n)).isSome
        = false := by
      rw [Bool.eq_false_iff, Ne, find_account_by_username_isSome_iff]
      rintro ⟨a, ha, he⟩
      exact (hne a ha).2 he
    unfold signup_flow array_push
    rw [h1, h2]
    have hlen : ((List.range n).map roll_account).length < MAX_USERS := by
      simp; omega
    simp only [Bool.false_eq_true, if_false, if_pos hlen, Option.map_some']
    rw [List.range_succ, List.map_append]
    rfl

/-- C4 (failing input). The store `full_accounts` is reached by 1000 signups
and holds MAX_USERS accounts.  On it add-account reports CapacityExceeded and
leaves the store alone, whereas signup does not: its write
`accounts[accounts_count++] = a` goes past the end of the array. -/
theorem signup_flow_full_store_overflows :
    AccountReach full_accounts ∧ full_accounts.length = MAX_USERS ∧
    add_account full_accounts (some 'S') "new" "new" "pw" =
      (Status.capacityExceeded, full_accounts) ∧
    signup_flow full_accounts "new" "new" "pw" = none := by
  have hlen : full_accounts.length = MAX_USERS := by simp [full_accounts]
  refine ⟨roll_accounts_reach MAX_USERS (le_refl _), hlen, ?_, ?_⟩
  · unfold add_account
    rw [if_pos (by omega)]
  · have hne : ∀ a ∈ full_accounts, a.id ≠ "new" ∧ a.username ≠ "new" := by
      intro a ha
      obtain ⟨i, -, rfl⟩ := List.mem_map.mp ha
      exact ⟨roll_ne_new i, roll_ne_new i⟩
    have h1 : (find_account_by_id full_accounts "new").isSome = false := by
      rw [Bool.eq_false_iff, Ne, find_account_by_id_isSome_iff]
      rintro ⟨a, ha, he⟩
      exact (hne a ha).1 he
    have h2 : (find_account_by_username full_accounts "new").isSome = false := by
      rw [Bool.eq_false_iff, Ne, find_account_by_username_isSome_iff]
      rintro ⟨a, ha, he⟩
      exact (hne a ha).2 he
    unfold signup_flow array_push
    rw [h1, h2, hlen]
    simp


/-! ## Student store -/

theorem find_student_by_id_eq_none_iff (s : List Student) (id : String) :
    find_student_by_id s id = none ↔ ∀ r ∈ s, r.id ≠ id := by
  unfold find_student_by_id
  rw [scan_from_eq_none_iff]
  simp

theorem find_student_by_id_eq_some_iff (s : List Student) (id : String) (idx : Nat) :
    find_student_by_id s id = some idx ↔
      ∃ pre r post, s = pre ++ r :: post ∧ idx = pre.length ∧ r.id = id ∧
        ∀ y ∈ pre, y.id ≠ id := by
  unfold find_student_by_id
  rw [scan_from_eq_some_iff]
  simp

theorem exists_first_student (s : List Student) (id : String) (h : ∃ r ∈ s, r.id = id) :
    ∃ pre r post, s = pre ++ r :: post ∧ r.id = id ∧ (∀ y ∈ pre, y.id ≠ id) ∧
      find_student_by_id s id = some pre.length := by
  cases hf : find_student_by_id s id with
  | none =>
    obtain ⟨r, hr, he⟩ := h
    exact absurd he ((find_student_by_id_eq_none_iff s id).mp hf r hr)
  | some idx =>
    obtain ⟨pre, r, post, hs, hidx, hr, hpre⟩ := (find_student_by_id_eq_some_iff s id idx).mp hf
    exact ⟨pre, r, post, hs, hr, hpre, by rw [hidx]⟩

theorem modify_student_record_found (pre post : List Student) (r : Student) (id : String)
    (input : Fin 5 → Option Int) (hr : r.id = id) (hpre : ∀ y ∈ pre, y.id ≠ id) :
    modify_student_record (pre ++ r :: post) id input =
      (Status.ok,
        pre ++ calc_total_and_cgpa { r with marks := modify_marks r.marks input } :: post) := by
  have hf : find_student_by_id (pre ++ r :: post) id = some pre.length :=
    (find_student_by_id_eq_some_iff _ _ _).mpr ⟨pre, r, post, rfl, rfl, hr, hpre⟩
  unfold modify_student_record
  rw [hf]
  simp only [getElem?_length_append, set_length_append]

theorem modify_student_record_not_found (s : List Student) (id : String)
    (input : Fin 5 → Option Int) (h : ∀ r ∈ s, r.id ≠ id) :
    modify_student_record s id input = (Status.notFound, s) := by
  unfold modify_student_record
  rw [(find_student_by_id_eq_none_iff s id).mpr h]

theorem delete_student_record_found (pre post : List Student) (r : Student) (id : String)
    (hr : r.id = id) (hpre : ∀ y ∈ pre, y.id ≠ id) :
    delete_student_record (pre ++ r :: post) id = (Status.ok, pre ++ post) := by
  have hf : find_student_by_id (pre ++ r :: post) id = some pre.length :=
    (find_student_by_id_eq_some_iff _ _ _).mpr ⟨pre, r, post, rfl, rfl, hr, hpre⟩
  unfold delete_student_record
  rw [hf]
  simp only
  rw [remove_at_eq_eraseIdx _ _ (by simp), eraseIdx_length_append]

theorem delete_student_record_not_found (s : List Student) (id : String)
    (h : ∀ r ∈ s, r.id ≠ id) :
    delete_student_record s id = (Status.notFound, s) := by
  unfold delete_student_record
  rw [(find_student_by_id_eq_none_iff s id).mpr h]

theorem clamp_mark_range (m : Int) : 0 ≤ clamp_mark m ∧ clamp_mark m ≤ 100 := by
  unfold clamp_mark
  dsimp only
  split_ifs <;> omega

theorem clamp_mark_of_range {m : Int} (h0 : 0 ≤ m) (h1 : m ≤ 100) : clamp_mark m = m := by
  unfold clamp_mark
  dsimp only
  split_ifs <;> omega

theorem modify_marks_range (old : Fin 5 → Int) (input : Fin 5 → Option Int)
    (h : ∀ i, 0 ≤ old i ∧ old i ≤ 100) (i : Fin 5) :
    0 ≤ modify_marks old input i ∧ modify_marks old input i ≤ 100 := by
  unfold modify_marks
  dsimp only
  split_ifs with hc
  · exact hc
  · exact h i

theorem calc_total_and_cgpa_consistent (s : Student) (h : ∀ i, 0 ≤ s.marks i ∧ s.marks i ≤ 100) :
    (calc_total_and_cgpa s).Consistent := by
  refine ⟨h, sum_marks_eq s.marks, rfl⟩

theorem add_student_record_cases (s : List Student) (id name : String)
    (input : Fin 5 → Option Int) :
    (MAX_STUDENTS ≤ s.length ∧
        add_student_record s id name input = (Status.capacityExceeded, s)) ∨
      (s.length < MAX_STUDENTS ∧ (∃ r ∈ s, r.id = id) ∧
        add_student_record s id name input = (Status.duplicateId, s)) ∨
      (s.length < MAX_STUDENTS ∧ (∀ r ∈ s, r.id ≠ id) ∧
        add_student_record s id name input =
          (Status.ok, s ++ [calc_total_and_cgpa
            { id := id, name := name, marks := fun i => clamp_mark ((input i).getD 0),
              total := 0, cgpa := 0 }])) := by
  unfold add_student_record
  split_ifs with h1 h2
  · left; exact ⟨h1, rfl⟩
  · right; left
    exact ⟨by omega, (find_student_by_id_isSome_iff s id).mp h2, rfl⟩
  · right; right
    refine ⟨by omega, ?_, rfl⟩
    intro r hr he
    exact h2 ((find_student_by_id_isSome_iff s id).mpr ⟨r, hr, he⟩)

theorem sort_students_with_perm (cmp : Student → Student → Int) (s : List Student)
    (out : Status × List Student) (h : sort_students_with cmp s out) : out.2.Perm s := by
  unfold sort_students_with at h
  split_ifs at h with h1
  · rw [h]
  · exact h.2.1

theorem modify_student_record_cases (s : List Student) (id : String)
    (input : Fin 5 → Option Int) :
    ((∀ r ∈ s, r.id ≠ id) ∧ modify_student_record s id input = (Status.notFound, s)) ∨
      ∃ pre r post, s = pre ++ r :: post ∧ r.id = id ∧ (∀ y ∈ pre, y.id ≠ id) ∧
        modify_student_record s id input =
          (Status.ok,
            pre ++ calc_total_and_cgpa { r with marks := modify_marks r.marks input } :: post) := by
  by_cases h : ∃ r ∈ s, r.id = id
  · right
    obtain ⟨pre, r, post, hs, hr, hpre, -⟩ := exists_first_student s id h
    refine ⟨pre, r, post, hs, hr, hpre, ?_⟩
    rw [hs]
    exact modify_student_record_found pre post r id input hr hpre
  · left
    push_neg at h
    exact ⟨h, modify_student_record_not_found s id input h⟩

theorem delete_student_record_cases (s : List Student) (id : String) :
    ((∀ r ∈ s, r.id ≠ id) ∧ delete_student_record s id = (Status.notFound, s)) ∨
      ∃ pre r post, s = pre ++ r :: post ∧ r.id = id ∧ (∀ y ∈ pre, y.id ≠ id) ∧
        delete_student_record s id = (Status.ok, pre ++ post) := by
  by_cases h : ∃ r ∈ s, r.id = id
  · right
    obtain ⟨pre, r, post, hs, hr, hpre, -⟩ := exists_first_student s id h
    refine ⟨pre, r, post, hs, hr, hpre, ?_⟩
    rw [hs]
    exact delete_student_record_found pre post r id hr hpre
  · left
    push_neg at h
    exact ⟨h, delete_student_record_not_found s id h⟩

theorem student_reach_consistent (s : List Student) (h : StudentReach s) :
    ∀ r ∈ s, r.Consistent := by
  induction h with
  | init => simp
  | @add s id name input _ ih =>
    rcases add_student_record_cases s id name input with ⟨-, he⟩ | ⟨-, -, he⟩ | ⟨-, -, he⟩
    · rw [he]; exact ih
    · rw [he]; exact ih
    · rw [he]
      intro r hr
      rcases List.mem_append.mp hr with hr | hr
      · exact ih r hr
      · rw [List.mem_singleton.mp hr]
        exact calc_total_and_cgpa_consistent _ (fun i => clamp_mark_range _)
  | @modify s id input _ ih =>
    rcases modify_student_record_cases s id input with ⟨-, he⟩ | ⟨pre, r, post, hs, -, -, he⟩
    · rw [he]; exact ih
    · rw [he]
      intro x hx
      have hrs : r ∈ s := by rw [hs]; simp
      rcases List.mem_append.mp hx with hx | hx
      · exact ih x (by rw [hs]; exact List.mem_append_left _ hx)
      · rcases List.mem_cons.mp hx with hx | hx
        · rw [hx]
          exact calc_total_and_cgpa_consistent _ (modify_marks_range _ _ (ih r hrs).1)
        · exact ih x (by rw [hs]; exact List.mem_append_right _ (List.mem_cons_of_mem _ hx))
  | @delete s id _ ih =>
    rcases delete_student_record_cases s id with ⟨-, he⟩ | ⟨pre, r, post, hs, -, -, he⟩
    · rw [he]; exact ih
    · rw [he]
      intro x hx
      apply ih x
      rw [hs]
      rcases List.mem_append.mp hx with hx | hx
      · exact List.mem_append_left _ hx
      · exact List.mem_append_right _ (List.mem_cons_of_mem _ hx)
  | sort_cgpa_asc out _ hsort ih =>
    intro r hr
    exact ih r ((sort_students_with_perm _ _ _ hsort).mem_iff.mp hr)
  | sort_cgpa_desc out _ hsort ih =>
    intro r hr
    exact ih r ((sort_students_with_perm _ _ _ hsort).mem_iff.mp hr)
  | sort_name out _ hsort ih =>
    intro r hr
    exact ih r ((sort_students_with_perm _ _ _ hsort).mem_iff.mp hr)

theorem student_reach_nodup (s : List Student) (h : StudentReach s) :
    (s.map Student.id).Nodup := by
  induction h with
  | init => simp
  | @add s id name input _ ih =>
    rcases add_student_record_cases s id name input with ⟨-, he⟩ | ⟨-, -, he⟩ | ⟨-, hf, he⟩
    · rw [he]; exact ih
    · rw [he]; exact ih
    · rw [he]
      exact nodup_map_append_singleton _ s _ ih hf
  | @modify s id input _ ih =>
    rcases modify_student_record_cases s id input with ⟨-, he⟩ | ⟨pre, r, post, hs, -, -, he⟩
    · rw [he]; exact ih
    · rw [he]
      rw [hs] at ih
      simpa [calc_total_and_cgpa] using ih
  | @delete s id _ ih =>
    rcases delete_student_record_cases s id with ⟨-, he⟩ | ⟨pre, r, post, hs, -, -, he⟩
    · rw [he]; exact ih
    · rw [he]
      rw [hs] at ih
      refine ih.sublist (List.Sublist.map _ ?_)
      exact List.Sublist.append_left (List.sublist_cons_self r post) pre
  | sort_cgpa_asc out _ hsort ih =>
    exact ((sort_students_with_perm _ _ _ hsort).map _).nodup_iff.mpr ih
  | sort_cgpa_desc out _ hsort ih =>
    exact ((sort_students_with_perm _ _ _ hsort).map _).nodup_iff.mpr ih
  | sort_name out _ hsort ih =>
    exact ((sort_students_with_perm _ _ _ hsort).map _).nodup_iff.mpr ih

theorem student_reach_length_le (s : List Student) (h : StudentReach s) :
    s.length ≤ MAX_STUDENTS := by
  induction h with
  | init => simp
  | @add s id name input _ ih =>
    rcases add_student_record_cases s id name input with ⟨-, he⟩ | ⟨-, -, he⟩ | ⟨hlt, -, he⟩
    · rw [he]; exact ih
    · rw [he]; exact ih
    · rw [he, List.length_append]
      simpa using hlt
  | @modify s id input _ ih =>
    rcases modify_student_record_cases s id input with ⟨-, he⟩ | ⟨pre, r, post, hs, -, -, he⟩
    · rw [he]; exact ih
    · rw [he]
      rw [hs] at ih
      simpa using ih
  | @delete s id _ ih =>
    rcases delete_student_record_cases s id with ⟨-, he⟩ | ⟨pre, r, post, hs, -, -, he⟩
    · rw [he]; exact ih
    · rw [he]
      rw [hs] at ih
      simp only [List.length_append, List.length_cons] at ih ⊢
      omega
  | sort_cgpa_asc out _ hsort ih =>
    rw [(sort_students_with_perm _ _ _ hsort).length_eq]; exact ih
  | sort_cgpa_desc out _ hsort ih =>
    rw [(sort_students_with_perm _ _ _ hsort).length_eq]; exact ih
  | sort_name out _ hsort ih =>
    rw [(sort_students_with_perm _ _ _ hsort).length_eq]; exact ih

theorem roll_students_reach (n : Nat) (hn : n ≤ MAX_STUDENTS) :
    StudentReach ((List.range n).map roll_student) := by
  induction n with
  | zero => exact StudentReach.init
  | succ n ih =>
    have hprev := ih (by omega)
    have hne : ∀ r ∈ (List.range n).map roll_student, r.id ≠ roll n := by
      intro r hr
      obtain ⟨i, hi, rfl⟩ := List.mem_map.mp hr
      have hi : i < n := List.mem_range.mp hi
      intro h
      have : i = n :=
        roll_inj (by unfold MAX_STUDENTS at hn; omega) (by unfold MAX_STUDENTS at hn; omega) h
      omega
    have hstep := StudentReach.add (roll n) "student" (fun _ => none) hprev
    rcases add_student_record_cases ((List.range n).map roll_student) (roll n) "student"
      (fun _ => none) with ⟨hc, -⟩ | ⟨-, ⟨r, hr, he⟩, -⟩ | ⟨-, -, he⟩
    · simp at hc; omega
    · exact absurd he (hne r hr)
    · rw [he] at hstep
      rw [List.range_succ, List.map_append]
      exact hstep

theorem cgpa_of_total_error_nonneg {t : ℤ} (h0 : 0 ≤ t) (h500 : t ≤ 500) :
    |cgpa_of_total t - (t : ℚ) / 500 * 10| ≤ (t : ℚ) / 500 * 10 * (1 / 2 ^ 22) := by
  rcases eq_or_lt_of_le h0 with h | h
  · rw [← h, cgpa_of_total_zero]; simp
  · exact cgpa_of_total_error (by omega) h500

theorem sum_marks_range (m : Fin 5 → Int) (h : ∀ i, 0 ≤ m i ∧ m i ≤ 100) :
    0 ≤ m 0 + m 1 + m 2 + m 3 + m 4 ∧ m 0 + m 1 + m 2 + m 3 + m 4 ≤ 500 := by
  have h0 := h 0
  have h1 := h 1
  have h2 := h 2
  have h3 := h 3
  have h4 := h 4
  constructor <;> omega

/-- C1 (as stated) fails: for the marks [1,0,0,0,0] the total is 1 and the
stored cgpa is the binary32 value 10737419 / 2^29 (about 0.0200000014), which
is not the rational 1/500*10 = 1/50; no binary floating-point number is. -/
theorem calc_cgpa_not_exact_rational :
    (∀ i, 0 ≤ (![1, 0, 0, 0, 0] : Fin 5 → Int) i ∧ (![1, 0, 0, 0, 0] : Fin 5 → Int) i ≤ 100) ∧
    (calc_total_and_cgpa
      { id := "s1", name := "Asha", marks := ![1, 0, 0, 0, 0], total := 0, cgpa := 0 }).total = 1 ∧
    (calc_total_and_cgpa
      { id := "s1", name := "Asha", marks := ![1, 0, 0, 0, 0], total := 0, cgpa := 0 }).cgpa
        = 10737419 / 2 ^ 29 ∧
    (calc_total_and_cgpa
      { id := "s1", name := "Asha", marks := ![1, 0, 0, 0, 0], total := 0, cgpa := 0 }).cgpa
        ≠ (1 : ℚ) / 500 * 10 := by
  have ht : sum_marks (![1, 0, 0, 0, 0] : Fin 5 → Int) = 1 := by decide
  refine ⟨by decide, ht, ?_, ?_⟩
  · show cgpa_of_total (sum_marks ![1, 0, 0, 0, 0]) = _
    rw [ht, cgpa_of_total_1]
  · show cgpa_of_total (sum_marks ![1, 0, 0, 0, 0]) ≠ _
    rw [ht, cgpa_of_total_1]
    norm_num

/-- C1 (amended). For marks in [0,100], `calc_total_and_cgpa` sets `total` to
the sum of the five marks and `cgpa` to the single-precision value of
`(total / 500.0f) * 10.0f`; that value lies within a relative error of 2^-22
of the rational total/500*10 and satisfies 0 <= cgpa <= 10; for the marks
[80,90,70,60,100] the total is 400 and the cgpa is exactly 8. -/
theorem calc_total_and_cgpa_spec (s : Student) (h : ∀ i, 0 ≤ s.marks i ∧ s.marks i ≤ 100) :
    (calc_total_and_cgpa s).total =
        s.marks 0 + s.marks 1 + s.marks 2 + s.marks 3 + s.marks 4 ∧
    (calc_total_and_cgpa s).cgpa =
        f32_mul (f32_div (f32_of_int (calc_total_and_cgpa s).total) 500) 10 ∧
    |(calc_total_and_cgpa s).cgpa - ((calc_total_and_cgpa s).total : ℚ) / 500 * 10| ≤
        ((calc_total_and_cgpa s).total : ℚ) / 500 * 10 * (1 / 2 ^ 22) ∧
    0 ≤ (calc_total_and_cgpa s).cgpa ∧ (calc_total_and_cgpa s).cgpa ≤ 10 ∧
    (s.marks = ![80, 90, 70, 60, 100] →
      (calc_total_and_cgpa s).total = 400 ∧ (calc_total_and_cgpa s).cgpa = 8) := by
  have hsum : (calc_total_and_cgpa s).total =
      s.marks 0 + s.marks 1 + s.marks 2 + s.marks 3 + s.marks 4 := sum_marks_eq s.marks
  have hc : (calc_total_and_cgpa s).cgpa = cgpa_of_total (calc_total_and_cgpa s).total := rfl
  have hr := sum_marks_range s.marks h
  rw [← hsum] at hr
  refine ⟨hsum, rfl, ?_, ?_, ?_, ?_⟩
  · rw [hc]; exact cgpa_of_total_error_nonneg hr.1 hr.2
  · rw [hc]; exact (cgpa_of_total_range hr.1 hr.2).1
  · rw [hc]; exact (cgpa_of_total_range hr.1 hr.2).2
  · intro hm
    have h400 : (calc_total_and_cgpa s).total = 400 := by
      rw [hsum, hm]; decide
    exact ⟨h400, by rw [hc, h400, cgpa_of_total_400]⟩

theorem calc_total_and_cgpa_spec_witness :
    (∀ i, 0 ≤ example_student.marks i ∧ example_student.marks i ≤ 100) ∧
    (calc_total_and_cgpa example_student).total = 400 ∧
    (calc_total_and_cgpa example_student).cgpa = 8 ∧
    0 ≤ (calc_total_and_cgpa example_student).cgpa ∧
    (calc_total_and_cgpa example_student).cgpa ≤ 10 :=
  have hm : ∀ i, 0 ≤ example_student.marks i ∧ example_student.marks i ≤ 100 := by decide
  have h := calc_total_and_cgpa_spec example_student hm
  ⟨hm, (h.2.2.2.2.2 rfl).1, (h.2.2.2.2.2 rfl).2, h.2.2.2.1, h.2.2.2.2.1⟩


theorem example_store_eq : example_store = [calc_total_and_cgpa example_student] := by
  have hmarks : (fun i => clamp_mark ((some (example_marks i)).getD 0)) = example_marks := by
    funext i
    fin_cases i <;> rfl
  show [calc_total_and_cgpa
    { id := "s1", name := "Asha",
      marks := fun i => clamp_mark ((some (example_marks i)).getD 0), total := 0, cgpa := 0 }] = _
  rw [hmarks]
  rfl

/-- C5. In every student store reached from the empty store by add-student,
modify-student, delete-student and the sort operations, every record has each
mark in [0,100], `total` equal to the sum of its marks, and `cgpa` equal to
the value the program computes for total/500*10 (the single-precision
`(total / 500.0f) * 10.0f`, within a relative error of 2^-22 of the
rational). -/
theorem student_consistency_invariant (s : List Student) (h : StudentReach s) :
    ∀ r ∈ s, (∀ i, 0 ≤ r.marks i ∧ r.marks i ≤ 100) ∧
      r.total = r.marks 0 + r.marks 1 + r.marks 2 + r.marks 3 + r.marks 4 ∧
      r.cgpa = f32_mul (f32_div (f32_of_int r.total) 500) 10 ∧
      |r.cgpa - (r.total : ℚ) / 500 * 10| ≤ (r.total : ℚ) / 500 * 10 * (1 / 2 ^ 22) := by
  intro r hr
  obtain ⟨hm, ht, hc⟩ := student_reach_consistent s h r hr
  have hrange := sum_marks_range r.marks hm
  rw [← ht] at hrange
  refine ⟨hm, ht, hc, ?_⟩
  rw [hc]
  exact cgpa_of_total_error_nonneg hrange.1 hrange.2

theorem student_consistency_invariant_witness :
    StudentReach example_store ∧ calc_total_and_cgpa example_student ∈ example_store ∧
    ((∀ i, 0 ≤ (calc_total_and_cgpa example_student).marks i ∧
        (calc_total_and_cgpa example_student).marks i ≤ 100) ∧
      (calc_total_and_cgpa example_student).total =
        (calc_total_and_cgpa example_student).marks 0 +
          (calc_total_and_cgpa example_student).marks 1 +
          (calc_total_and_cgpa example_student).marks 2 +
          (calc_total_and_cgpa example_student).marks 3 +
          (calc_total_and_cgpa example_student).marks 4 ∧
      (calc_total_and_cgpa example_student).cgpa =
        f32_mul (f32_div (f32_of_int (calc_total_and_cgpa example_student).total) 500) 10 ∧
      |(calc_total_and_cgpa example_student).cgpa -
          ((calc_total_and_cgpa example_student).total : ℚ) / 500 * 10| ≤
        ((calc_total_and_cgpa example_student).total : ℚ) / 500 * 10 * (1 / 2 ^ 22)) :=
  have hr : StudentReach example_store := StudentReach.add "s1" "Asha" _ StudentReach.init
  have hmem : calc_total_and_cgpa example_student ∈ example_store := by
    rw [example_store_eq]
    exact List.mem_singleton_self _
  ⟨hr, hmem, student_consistency_invariant example_store hr _ hmem⟩

/-- C6 (as stated) fails: the store `full_students` is reached by 2000
add-student operations and holds a record with id "0000"; adding a student
with that id is rejected with CapacityExceeded, not DuplicateId. -/
theorem add_student_duplicate_on_full_store :
    StudentReach full_students ∧ (∃ r ∈ full_students, r.id = roll 0) ∧
    add_student_record full_students (roll 0) "Asha" (fun _ => some 50) =
      (Status.capacityExceeded, full_students) := by
  refine ⟨roll_students_reach MAX_STUDENTS (le_refl _), ⟨roll_student 0, ?_, rfl⟩, ?_⟩
  · exact List.mem_map.mpr ⟨0, by simp [MAX_STUDENTS], rfl⟩
  · unfold add_student_record
    rw [if_pos (by simp [full_students])]

/-- C6 (amended). In every student store reached from the empty store by
add-student, modify-student, delete-student and the sort operations, no two
records share an id; an add-student whose id already exists leaves the store
unchanged and fails with DuplicateId while the store is below capacity, and
with CapacityExceeded once it holds MAX_STUDENTS records. -/
theorem student_ids_unique_invariant (s : List Student) (h : StudentReach s) :
    s.Pairwise (fun a b => a.id ≠ b.id) ∧
    ∀ (id name : String) (input : Fin 5 → Option Int), (∃ r ∈ s, r.id = id) →
      (add_student_record s id name input).2 = s ∧
      (add_student_record s id name input).1 =
        if s.length < MAX_STUDENTS then Status.duplicateId else Status.capacityExceeded := by
  refine ⟨List.pairwise_map.mp (student_reach_nodup s h), ?_⟩
  intro id name input hex
  rcases add_student_record_cases s id name input with ⟨hc, he⟩ | ⟨hc, -, he⟩ | ⟨-, hf, -⟩
  · rw [he, if_neg (by omega)]
    exact ⟨rfl, rfl⟩
  · rw [he, if_pos hc]
    exact ⟨rfl, rfl⟩
  · obtain ⟨r, hr, hid⟩ := hex
    exact absurd hid (hf r hr)

theorem student_ids_unique_invariant_witness :
    StudentReach (add_student_record [] "s1" "Asha" (fun i => some (example_marks i))).2 ∧
    (add_student_record [] "s1" "Asha" (fun i => some (example_marks i))).2.Pairwise
      (fun a b => a.id ≠ b.id) ∧
    (add_student_record
      (add_student_record [] "s1" "Asha" (fun i => some (example_marks i))).2
      "s1" "Ravi" (fun _ => some 50)).1 = Status.duplicateId :=
  have hr : StudentReach
      (add_student_record [] "s1" "Asha" (fun i => some (example_marks i))).2 :=
    StudentReach.add "s1" "Asha" _ StudentReach.init
  have h := student_ids_unique_invariant _ hr
  ⟨hr, h.1, (h.2 "s1" "Ravi" (fun _ => some 50) ⟨_, List.mem_singleton_self _, rfl⟩).2⟩

theorem modify_marks_out_of_range (old : Fin 5 → Int) (input : Fin 5 → Option Int)
    (hin : ∀ i m, input i = some m → m < 0 ∨ 100 < m) : modify_marks old input = old := by
  funext i
  unfold modify_marks
  dsimp only
  cases hi : input i with
  | none => simp
  | some m =>
    have := hin i m hi
    have hc : ¬ (0 ≤ m ∧ m ≤ 100) := by omega
    simp [hc]

/-- On any list of records, a modify with five inputs none of which is an
integer in [0,100] keeps the id, the name and every mark of the first record
with the id and stores the total and cgpa recomputed from those marks; when
the stored total and cgpa already agree with the marks, nothing changes. -/
theorem modify_out_of_range_keeps_record (s : List Student) (id : String)
    (input : Fin 5 → Option Int) (hid : ∃ r ∈ s, r.id = id)
    (hin : ∀ i m, input i = some m → m < 0 ∨ 100 < m) :
    ∃ pre r post r', s = pre ++ r :: post ∧ r.id = id ∧ (∀ y ∈ pre, y.id ≠ id) ∧
      modify_student_record s id input = (Status.ok, pre ++ r' :: post) ∧
      r'.id = r.id ∧ r'.name = r.name ∧ (∀ i, r'.marks i = r.marks i) ∧
      r'.total = r.marks 0 + r.marks 1 + r.marks 2 + r.marks 3 + r.marks 4 ∧
      r'.cgpa = cgpa_of_total r'.total ∧
      (r.total = r.marks 0 + r.marks 1 + r.marks 2 + r.marks 3 + r.marks 4 →
        r.cgpa = cgpa_of_total r.total →
        r'.total = r.total ∧ r'.cgpa = r.cgpa ∧
          modify_student_record s id input = (Status.ok, s)) := by
  obtain ⟨pre, r, post, hs, hr, hpre, -⟩ := exists_first_student s id hid
  have hm := modify_marks_out_of_range r.marks input hin
  have he := modify_student_record_found pre post r id input hr hpre
  rw [hm] at he
  refine ⟨pre, r, post, calc_total_and_cgpa r, hs, hr, hpre, ?_, rfl, rfl, fun _ => rfl,
    sum_marks_eq r.marks, rfl, ?_⟩
  · rw [hs]; exact he
  · intro ht hc
    have h1 : (calc_total_and_cgpa r).total = r.total := by
      rw [ht]; exact sum_marks_eq r.marks
    have h2 : (calc_total_and_cgpa r).cgpa = r.cgpa := by
      rw [hc, ← h1]; rfl
    have h3 : calc_total_and_cgpa r = r := by
      cases r
      simp only [calc_total_and_cgpa] at h1 h2 ⊢
      simp only [Student.mk.injEq, true_and]
      exact ⟨h1, h2⟩
    refine ⟨h1, h2, ?_⟩
    rw [hs, he]
    show (Status.ok, pre ++ calc_total_and_cgpa r :: post) = _
    rw [h3]

/-- C8. modify-student changes only the first record with the given id: each
mark becomes the supplied value when that value is an integer in [0,100] and
stays otherwise, the total becomes the sum of the resulting marks, id and name
are kept, and the records before and after it, their order and the count are
unchanged; when no record has the id it reports NotFound and the store is
unchanged. -/
theorem modify_student_record_spec (s : List Student) (id : String)
    (input : Fin 5 → Option Int) :
    ((∀ r ∈ s, r.id ≠ id) → modify_student_record s id input = (Status.notFound, s)) ∧
    ((∃ r ∈ s, r.id = id) →
      ∃ pre r post r', s = pre ++ r :: post ∧ r.id = id ∧ (∀ y ∈ pre, y.id ≠ id) ∧
        modify_student_record s id input = (Status.ok, pre ++ r' :: post) ∧
        (pre ++ r' :: post).length = s.length ∧
        r'.id = r.id ∧ r'.name = r.name ∧
        (∀ i m, input i = some m → 0 ≤ m → m ≤ 100 → r'.marks i = m) ∧
        (∀ i m, input i = some m → (m < 0 ∨ 100 < m) → r'.marks i = r.marks i) ∧
        (∀ i, input i = none → r'.marks i = r.marks i) ∧
        r'.total = r'.marks 0 + r'.marks 1 + r'.marks 2 + r'.marks 3 + r'.marks 4) := by
  refine ⟨modify_student_record_not_found s id input, ?_⟩
  intro hid
  obtain ⟨pre, r, post, hs, hr, hpre, -⟩ := exists_first_student s id hid
  have he := modify_student_record_found pre post r id input hr hpre
  refine ⟨pre, r, post, calc_total_and_cgpa { r with marks := modify_marks r.marks input },
    hs, hr, hpre, by rw [hs]; exact he, by rw [hs]; simp, rfl, rfl,
    ?_, ?_, ?_, sum_marks_eq _⟩
  · intro i m hi h0 h1
    show modify_marks r.marks input i = m
    unfold modify_marks
    simp [hi, h0, h1]
  · intro i m hi hout
    show modify_marks r.marks input i = r.marks i
    unfold modify_marks
    have hc : ¬ (0 ≤ m ∧ m ≤ 100) := by omega
    simp [hi, hc]
  · intro i hi
    show modify_marks r.marks input i = r.marks i
    unfold modify_marks
    simp [hi]

theorem modify_student_record_spec_witness :
    ∃ pre r post r', [calc_total_and_cgpa example_student] = pre ++ r :: post ∧ r.id = "s1" ∧
      (∀ y ∈ pre, y.id ≠ "s1") ∧
      modify_student_record [calc_total_and_cgpa example_student] "s1"
        (fun _ => some 55) = (Status.ok, pre ++ r' :: post) ∧
      (∀ i, r'.marks i = 55) ∧ r'.total = 275 :=
  have h := (modify_student_record_spec [calc_total_and_cgpa example_student] "s1"
    (fun _ => some 55)).2 ⟨_, List.mem_singleton_self _, rfl⟩
  match h with
  | ⟨pre, r, post, r', h1, h2, h3, h4, _, _, _, h8, _, _, h11⟩ =>
    ⟨pre, r, post, r', h1, h2, h3, h4,
      fun i => h8 i 55 rfl (by decide) (by decide),
      by rw [h11, h8 0 55 rfl (by decide) (by decide), h8 1 55 rfl (by decide) (by decide),
        h8 2 55 rfl (by decide) (by decide), h8 3 55 rfl (by decide) (by decide),
        h8 4 55 rfl (by decide) (by decide)]; rfl⟩

/-- C9. delete-student with an id that no record has reports NotFound and
leaves the store unchanged; otherwise the store becomes the original sequence
with the first record having that id removed, the remaining records in their
original order, and the count drops by exactly 1. -/
theorem delete_student_record_spec (s : List Student) (id : String) :
    ((∀ r ∈ s, r.id ≠ id) → delete_student_record s id = (Status.notFound, s)) ∧
    ((∃ r ∈ s, r.id = id) →
      ∃ pre r post, s = pre ++ r :: post ∧ r.id = id ∧ (∀ y ∈ pre, y.id ≠ id) ∧
        delete_student_record s id = (Status.ok, pre ++ post) ∧
        (pre ++ post).length + 1 = s.length) := by
  refine ⟨delete_student_record_not_found s id, ?_⟩
  intro hid
  obtain ⟨pre, r, post, hs, hr, hpre, -⟩ := exists_first_student s id hid
  refine ⟨pre, r, post, hs, hr, hpre, ?_, by rw [hs]; simp; omega⟩
  rw [hs]
  exact delete_student_record_found pre post r id hr hpre

theorem delete_student_record_spec_witness :
    delete_student_record [calc_total_and_cgpa example_student] "s2" =
      (Status.notFound, [calc_total_and_cgpa example_student]) ∧
    ∃ pre r post, [calc_total_and_cgpa example_student] = pre ++ r :: post ∧ r.id = "s1" ∧
      (∀ y ∈ pre, y.id ≠ "s1") ∧
      delete_student_record [calc_total_and_cgpa example_student] "s1" =
        (Status.ok, pre ++ post) ∧
      (pre ++ post).length + 1 = [calc_total_and_cgpa example_student].length :=
  ⟨(delete_student_record_spec [calc_total_and_cgpa example_student] "s2").1
      (fun r hr => by rw [List.mem_singleton.mp hr]; decide),
    (delete_student_record_spec [calc_total_and_cgpa example_student] "s1").2
      ⟨_, List.mem_singleton_self _, rfl⟩⟩

theorem find_student_by_id_append_fresh (s : List Student) (r : Student)
    (hfresh : ∀ x ∈ s, x.id ≠ r.id) : find_student_by_id (s ++ [r]) r.id = some s.length :=
  (find_student_by_id_eq_some_iff _ _ _).mpr ⟨s, r, [], rfl, rfl, rfl, hfresh⟩

/-- C10. For a store below capacity, an id not present in it, any name and
five marks in [0,100], add-student succeeds and appends one record;
`find_student_by_id` then returns the index of that record, whose id, name and
marks are the ones supplied, whose total is their sum and whose cgpa is the
value the program computes for total/500*10 (single precision, within a
relative error of 2^-22 of the rational); every earlier record keeps its index
and its content. -/
theorem add_then_find_student (s : List Student) (id name : String) (m : Fin 5 → Int)
    (hcap : s.length < MAX_STUDENTS) (hfresh : ∀ r ∈ s, r.id ≠ id)
    (hm : ∀ i, 0 ≤ m i ∧ m i ≤ 100) :
    ∃ r, add_student_record s id name (fun i => some (m i)) = (Status.ok, s ++ [r]) ∧
      find_student_by_id (s ++ [r]) id = some s.length ∧
      (s ++ [r])[s.length]? = some r ∧
      r.id = id ∧ r.name = name ∧ (∀ i, r.marks i = m i) ∧
      r.total = m 0 + m 1 + m 2 + m 3 + m 4 ∧
      r.cgpa = f32_mul (f32_div (f32_of_int r.total) 500) 10 ∧
      |r.cgpa - (r.total : ℚ) / 500 * 10| ≤ (r.total : ℚ) / 500 * 10 * (1 / 2 ^ 22) ∧
      ∀ i, i < s.length → (s ++ [r])[i]? = s[i]? := by
  have hmarks : (fun i => clamp_mark (((fun i => some (m i)) i).getD 0)) = m := by
    funext i
    exact clamp_mark_of_range (hm i).1 (hm i).2
  rcases add_student_record_cases s id name (fun i => some (m i)) with
    ⟨hc, -⟩ | ⟨-, ⟨r, hr, he⟩, -⟩ | ⟨-, -, he⟩
  · omega
  · exact absurd he (hfresh r hr)
  · rw [hmarks] at he
    have hrange := sum_marks_range m hm
    have htot : (calc_total_and_cgpa
        { id := id, name := name, marks := m, total := 0, cgpa := 0 }).total
        = m 0 + m 1 + m 2 + m 3 + m 4 := sum_marks_eq m
    refine ⟨_, he, find_student_by_id_append_fresh s _ hfresh, ?_, rfl, rfl, fun _ => rfl,
      htot, rfl, ?_, ?_⟩
    · rw [List.getElem?_append_right (le_refl _)]
      simp
    · rw [← htot] at hrange
      exact cgpa_of_total_error_nonneg hrange.1 hrange.2
    · intro i hi
      exact List.getElem?_append_left hi

theorem add_then_find_student_witness :
    ∃ r, add_student_record [] "s1" "Asha" (fun i => some (example_marks i)) =
        (Status.ok, [] ++ [r]) ∧
      find_student_by_id ([] ++ [r]) "s1" = some 0 ∧
      r.id = "s1" ∧ r.name = "Asha" ∧ (∀ i, r.marks i = example_marks i) ∧ r.total = 400 :=
  match add_then_find_student [] "s1" "Asha" example_marks (by decide) (by simp)
    (by decide) with
  | ⟨r, h1, h2, _, h4, h5, h6, h7, _⟩ => ⟨r, h1, h2, h4, h5, h6, by rw [h7]; rfl⟩

/-! ## Login, bootstrap and roles -/

theorem scan_from_getElem?_eq_find? {α : Type} (p : α → Bool) (xs : List α) :
    (match scan_from p xs 0 with
      | none => none
      | some idx => xs[idx]?) = xs.find? p := by
  cases h : scan_from p xs 0 with
  | none =>
    have := (scan_from_eq_none_iff p xs 0).mp h
    simp only
    symm
    rw [List.find?_eq_none]
    intro x hx
    simp [this x hx]
  | some idx =>
    obtain ⟨pre, x, post, hxs, hidx, hx, hpre⟩ := (scan_from_eq_some_iff p xs 0 idx).mp h
    simp only
    rw [hxs, hidx, Nat.zero_add, getElem?_length_append, List.find?_append]
    have hnone : pre.find? p = none := by
      rw [List.find?_eq_none]
      intro y hy
      simp [hpre y hy]
    rw [hnone]
    simp [List.find?_cons, hx]

theorem student_of_id_eq_find? (s : List Student) (id : String) :
    student_of_id s id = s.find? (fun r => decide (r.id = id)) := by
  unfold student_of_id find_student_by_id
  exact scan_from_getElem?_eq_find? _ s

theorem find_account_by_username_eq_none_iff (s : List Account) (uname : String) :
    find_account_by_username s uname = none ↔ ∀ a ∈ s, a.username ≠ uname := by
  unfold find_account_by_username
  rw [scan_from_eq_none_iff]
  simp

theorem find_account_by_username_eq_some_iff (s : List Account) (uname : String) (idx : Nat) :
    find_account_by_username s uname = some idx ↔
      ∃ pre a post, s = pre ++ a :: post ∧ idx = pre.length ∧ a.username = uname ∧
        ∀ y ∈ pre, y.username ≠ uname := by
  unfold find_account_by_username
  rw [scan_from_eq_some_iff]
  simp

/-- The part of `login_flow` after the account `me` has been found and its
password compared. -/
theorem login_flow_found (pre post : List Account) (me : Account) (uname pass : String)
    (hme : me.username = uname) (hpre : ∀ y ∈ pre, y.username ≠ uname) :
    login_flow (pre ++ me :: post) uname pass =
      if me.password ≠ pass then LoginResult.invalid
      else if me.role = 'A' then LoginResult.admin_menu me
      else if me.role = 'S' then LoginResult.student_menu me
      else LoginResult.unknown_role me := by
  have hf : find_account_by_username (pre ++ me :: post) uname = some pre.length :=
    (find_account_by_username_eq_some_iff _ _ _).mpr ⟨pre, me, post, rfl, rfl, hme, hpre⟩
  unfold login_flow
  rw [hf]
  simp only [getElem?_length_append]

theorem login_flow_not_found (s : List Account) (uname pass : String)
    (h : ∀ a ∈ s, a.username ≠ uname) : login_flow s uname pass = LoginResult.invalid := by
  unfold login_flow
  rw [(find_account_by_username_eq_none_iff s uname).mpr h]

theorem login_found_account (me : Account) (pass : String) (hp : me.password = pass) :
    (if me.password ≠ pass then LoginResult.invalid
      else if me.role = 'A' then LoginResult.admin_menu me
      else if me.role = 'S' then LoginResult.student_menu me
      else LoginResult.unknown_role me).account = some me := by
  rw [if_neg (by simpa using hp)]
  split_ifs <;> rfl

theorem exists_first_account (s : List Account) (uname : String)
    (h : ∃ a ∈ s, a.username = uname) :
    ∃ pre a post, s = pre ++ a :: post ∧ a.username = uname ∧ ∀ y ∈ pre, y.username ≠ uname := by
  cases hf : find_account_by_username s uname with
  | none =>
    obtain ⟨a, ha, he⟩ := h
    exact absurd he ((find_account_by_username_eq_none_iff s uname).mp hf a ha)
  | some idx =>
    obtain ⟨pre, a, post, hs, -, ha, hpre⟩ :=
      (find_account_by_username_eq_some_iff s uname idx).mp hf
    exact ⟨pre, a, post, hs, ha, hpre⟩

/-- C16. In a store with unique usernames, `login_flow` authenticates as the
account `a` exactly when `a` is stored with the supplied username and a
password equal to the supplied one; the menu entered is decided by the role of
`a`.  In every other case, whether no account has the username or the stored
password differs, the outcome is the same "Invalid username or password."
failure. -/
theorem login_flow_spec (s : List Account) (uname pass : String)
    (huniq : s.Pairwise (fun a b => a.username ≠ b.username)) :
    (∀ a, (login_flow s uname pass).account = some a ↔
      (a ∈ s ∧ a.username = uname ∧ a.password = pass)) ∧
    (∀ a, a ∈ s → a.username = uname → a.password = pass →
      login_flow s uname pass =
        if a.role = 'A' then LoginResult.admin_menu a
        else if a.role = 'S' then LoginResult.student_menu a
        else LoginResult.unknown_role a) ∧
    ((∀ a ∈ s, a.username ≠ uname) → login_flow s uname pass = LoginResult.invalid) ∧
    ((∃ a ∈ s, a.username = uname ∧ a.password ≠ pass) →
      login_flow s uname pass = LoginResult.invalid) := by
  have key : ∀ a, a ∈ s → a.username = uname →
      login_flow s uname pass =
        if a.password ≠ pass then LoginResult.invalid
        else if a.role = 'A' then LoginResult.admin_menu a
        else if a.role = 'S' then LoginResult.student_menu a
        else LoginResult.unknown_role a := by
    intro a ha hau
    obtain ⟨pre, me, post, hs, hme, hpre⟩ := exists_first_account s uname ⟨a, ha, hau⟩
    have hame : a = me := by
      rw [hs] at ha huniq
      rcases List.mem_append.mp ha with hin | hin
      · exact absurd hau (hpre a hin)
      · rcases List.mem_cons.mp hin with hin | hin
        · exact hin
        · have hp := (List.pairwise_append.mp huniq).2.1
          have := (List.pairwise_cons.mp hp).1 a hin
          rw [hme, hau] at this
          exact absurd rfl this
    rw [hame, hs]
    exact login_flow_found pre post me uname pass hme hpre
  refine ⟨?_, ?_, login_flow_not_found s uname pass, ?_⟩
  · intro a
    constructor
    · intro hacc
      by_cases hex : ∃ b ∈ s, b.username = uname
      · obtain ⟨b, hb, hbu⟩ := hex
        rw [key b hb hbu] at hacc
        by_cases hbp : b.password = pass
        · rw [login_found_account b pass hbp] at hacc
          cases hacc
          exact ⟨hb, hbu, hbp⟩
        · rw [if_pos hbp] at hacc
          cases hacc
      · push_neg at hex
        rw [login_flow_not_found s uname pass hex] at hacc
        cases hacc
    · rintro ⟨ha, hau, hap⟩
      rw [key a ha hau]
      exact login_found_account a pass hap
  · intro a ha hau hap
    rw [key a ha hau, if_neg (by simpa using hap)]
  · rintro ⟨a, ha, hau, hap⟩
    rw [key a ha hau, if_pos hap]

theorem login_flow_spec_witness :
    [default_admin].Pairwise (fun a b => a.username ≠ b.username) ∧
    (login_flow [default_admin] "admin" "admin").account = some default_admin ∧
    login_flow [default_admin] "admin" "admin" = LoginResult.admin_menu default_admin ∧
    login_flow [default_admin] "admin" "wrong" = LoginResult.invalid ∧
    login_flow [default_admin] "nobody" "admin" = LoginResult.invalid :=
  have hu : [default_admin].Pairwise (fun a b => a.username ≠ b.username) :=
    List.pairwise_singleton _ _
  have hmem : default_admin ∈ [default_admin] := List.mem_singleton_self _
  ⟨hu,
    ((login_flow_spec [default_admin] "admin" "admin" hu).1 default_admin).mpr ⟨hmem, rfl, rfl⟩,
    (login_flow_spec [default_admin] "admin" "admin" hu).2.1 default_admin hmem rfl rfl,
    (login_flow_spec [default_admin] "admin" "wrong" hu).2.2.2
      ⟨default_admin, hmem, rfl, by decide⟩,
    (login_flow_spec [default_admin] "nobody" "admin" hu).2.2.1
      (fun a ha => by rw [List.mem_singleton.mp ha]; decide)⟩

/-- C15. On the empty account store `create_admin_if_none` yields exactly one
account, with role 'A' and id, username and password all "admin"; on a
non-empty store it changes nothing, so applying it twice equals applying it
once. -/
theorem create_admin_if_none_spec (s : List Account) :
    create_admin_if_none [] =
      [{ role := 'A', id := "admin", username := "admin", password := "admin" }] ∧
    (create_admin_if_none []).length = 1 ∧
    (s ≠ [] → create_admin_if_none s = s) ∧
    create_admin_if_none (create_admin_if_none s) = create_admin_if_none s := by
  have hne : ∀ t : List Account, t ≠ [] → create_admin_if_none t = t := by
    intro t ht
    unfold create_admin_if_none
    rw [if_neg (by simpa using ht)]
  refine ⟨rfl, rfl, hne s, ?_⟩
  by_cases h : s = []
  · subst h
    exact hne _ (by decide)
  · rw [hne s h, hne s h]

theorem create_admin_if_none_spec_witness :
    create_admin_if_none [default_admin, roll_account 7] = [default_admin, roll_account 7] ∧
    create_admin_if_none (create_admin_if_none []) = create_admin_if_none [] :=
  ⟨(create_admin_if_none_spec [default_admin, roll_account 7]).2.2.1 (List.cons_ne_nil _ _),
    (create_admin_if_none_spec []).2.2.2⟩

theorem account_reach_roles (s : List Account) (h : AccountReach s) :
    ∀ a ∈ s, a.role = 'A' ∨ a.role = 'S' := by
  induction h with
  | init => simp
  | @bootstrap s _ ih =>
    unfold create_admin_if_none
    split_ifs with h0
    · intro a ha
      rcases List.mem_append.mp ha with ha | ha
      · exact ih a ha
      · rw [List.mem_singleton.mp ha]
        exact Or.inl rfl
    · exact ih
  | @add s rolein id username password _ ih =>
    rcases add_account_cases s rolein id username password with ⟨h1, -⟩ | ⟨-, hrole, -, -, heq⟩
    · rw [h1]; exact ih
    · rw [heq]
      intro a ha
      rcases List.mem_append.mp ha with ha | ha
      · exact ih a ha
      · rw [List.mem_singleton.mp ha]
        exact hrole
  | signup id username password st t _ hstep ih =>
    unfold signup_flow at hstep
    split_ifs at hstep with h3 h4
    · cases hstep; exact ih
    · cases hstep; exact ih
    · unfold array_push at hstep
      split_ifs at hstep with hcap
      · simp only [Option.map_some', Option.some.injEq, Prod.mk.injEq] at hstep
        obtain ⟨-, rfl⟩ := hstep
        intro a ha
        rcases List.mem_append.mp ha with ha | ha
        · exact ih a ha
        · rw [List.mem_singleton.mp ha]
          exact Or.inr rfl
      · simp at hstep
  | delete id _ ih =>
    intro a ha
    exact ih a ((delete_account_sublist _ id).subset ha)

theorem login_flow_unknown_role_mem (s : List Account) (uname pass : String) (me : Account)
    (h : login_flow s uname pass = LoginResult.unknown_role me) :
    me ∈ s ∧ me.role ≠ 'A' ∧ me.role ≠ 'S' := by
  by_cases hex : ∃ a ∈ s, a.username = uname
  · obtain ⟨pre, a, post, hs, ha, hpre⟩ := exists_first_account s uname hex
    rw [hs, login_flow_found pre post a uname pass ha hpre] at h
    split_ifs at h with h1 h2 h3
    cases h
    exact ⟨by rw [hs]; simp, h2, h3⟩
  · push_neg at hex
    rw [login_flow_not_found s uname pass hex] at h
    cases h

/-- Along runs in which every operation has a defined result, every account
has role 'A' or 'S' and no login ends in the "Unknown role." branch. -/
theorem account_reach_login_role (s : List Account) (h : AccountReach s) :
    (∀ a ∈ s, a.role = 'A' ∨ a.role = 'S') ∧
    ∀ uname pass me, login_flow s uname pass ≠ LoginResult.unknown_role me := by
  have hroles := account_reach_roles s h
  refine ⟨hroles, ?_⟩
  intro uname pass me hlogin
  obtain ⟨hmem, hA, hS⟩ := login_flow_unknown_role_mem s uname pass me hlogin
  rcases hroles me hmem with hr | hr
  · exact hA hr
  · exact hS hr

theorem find?_id_append_skip (pre post : List Student) (r : Student) (id : String)
    (hr : r.id ≠ id) :
    (pre ++ post).find? (fun x => decide (x.id = id)) =
      (pre ++ r :: post).find? (fun x => decide (x.id = id)) := by
  rw [List.find?_append, List.find?_append, List.find?_cons]
  simp [hr]

/-- C18. In a store with unique ids, after `delete_student_record` succeeds
for an id that was present, `find_student_by_id` no longer finds that id, and
every other id resolves to the same record as before, or to none as before. -/
theorem delete_then_find_student (s : List Student) (id : String)
    (huniq : s.Pairwise (fun a b => a.id ≠ b.id)) (hid : ∃ r ∈ s, r.id = id) :
    (delete_student_record s id).1 = Status.ok ∧
    find_student_by_id (delete_student_record s id).2 id = none ∧
    ∀ other, other ≠ id →
      student_of_id (delete_student_record s id).2 other = student_of_id s other := by
  obtain ⟨pre, r, post, hs, hr, hpre, -⟩ := exists_first_student s id hid
  have hdel := delete_student_record_found pre post r id hr hpre
  rw [hs] at huniq ⊢
  rw [hdel]
  refine ⟨rfl, ?_, ?_⟩
  · rw [find_student_by_id_eq_none_iff]
    intro x hx
    rcases List.mem_append.mp hx with hx | hx
    · exact hpre x hx
    · have hp := (List.pairwise_append.mp huniq).2.1
      have := (List.pairwise_cons.mp hp).1 x hx
      rw [hr] at this
      exact fun h => this h.symm
  · intro other hother
    rw [student_of_id_eq_find?, student_of_id_eq_find?]
    exact find?_id_append_skip pre post r other (by rw [hr]; exact fun h => hother h.symm)

/-! ## Sorting -/

theorem lex_cons_lt_of_ne {m n : ℕ} {l₁ l₂ : List ℕ}
    (h : List.Lex (· < ·) (m :: l₁) (n :: l₂)) (hne : m ≠ n) : m < n := by
  cases h with
  | cons h => exact absurd rfl hne
  | rel h => exact h

theorem strcasecmp_sign (x y : List Char) :
    (strcasecmp x y < 0 ↔
      List.Lex (· < ·) ((x.map lower_code).takeWhile (fun n => decide (n ≠ 0)))
        ((y.map lower_code).takeWhile (fun n => decide (n ≠ 0)))) ∧
    (strcasecmp x y = 0 ↔
      (x.map lower_code).takeWhile (fun n => decide (n ≠ 0)) =
        (y.map lower_code).takeWhile (fun n => decide (n ≠ 0))) := by
  induction x generalizing y with
  | nil =>
    cases y with
    | nil => simp [strcasecmp]
    | cons b bs =>
      by_cases hb : lower_code b = 0
      · simp [strcasecmp, List.takeWhile, hb]
      · have hpos : 0 < lower_code b := Nat.pos_of_ne_zero hb
        simp only [strcasecmp, List.map_nil, List.takeWhile, List.map_cons, hb, ne_eq,
          not_false_eq_true, decide_True]
        refine ⟨⟨fun _ => List.Lex.nil, fun _ => by omega⟩, ⟨fun h => by omega, fun h => ?_⟩⟩
        cases h
  | cons a as ih =>
    cases y with
    | nil =>
      by_cases ha : lower_code a = 0
      · simp [strcasecmp, List.takeWhile, ha]
      · have hpos : 0 < lower_code a := Nat.pos_of_ne_zero ha
        simp only [strcasecmp, List.map_nil, List.takeWhile, List.map_cons, ha, ne_eq,
          not_false_eq_true, decide_True]
        refine ⟨⟨fun h => by omega, fun h => ?_⟩, ⟨fun h => by omega, fun h => ?_⟩⟩
        · cases h
        · cases h
    | cons b bs =>
      by_cases hab : lower_code a = lower_code b
      · by_cases ha : lower_code a = 0
        · have hb : lower_code b = 0 := by rw [← hab]; exact ha
          simp [strcasecmp, List.takeWhile, ha, hb]
        · have hb : lower_code b ≠ 0 := by rw [← hab]; exact ha
          have hrec := ih bs
          simp only [strcasecmp, hab, if_true, hb, if_false, List.map_cons, List.takeWhile,
            ne_eq, not_false_eq_true, decide_True]
          rw [hab] at ha
          refine ⟨?_, ?_⟩
          · rw [hrec.1]
            exact (List.Lex.cons_iff).symm
          · rw [hrec.2]
            simp
      · simp only [strcasecmp, hab, if_false, List.map_cons]
        by_cases ha : lower_code a = 0
        · have hb : lower_code b ≠ 0 := fun h => hab (by rw [ha, h])
          have hpos : 0 < lower_code b := Nat.pos_of_ne_zero hb
          simp only [List.takeWhile, ha, hb, ne_eq, not_true_eq_false, decide_False,
            not_false_eq_true, decide_True]
          refine ⟨⟨fun _ => List.Lex.nil, fun _ => by push_cast; omega⟩,
            ⟨fun h => by push_cast at h; omega, fun h => ?_⟩⟩
          cases h
        · by_cases hb : lower_code b = 0
          · have hpos : 0 < lower_code a := Nat.pos_of_ne_zero ha
            simp only [List.takeWhile, ha, hb, ne_eq, not_true_eq_false, decide_False,
              not_false_eq_true, decide_True]
            refine ⟨⟨fun h => by push_cast at h; omega, fun h => ?_⟩,
              ⟨fun h => by push_cast at h; omega, fun h => ?_⟩⟩
            · cases h
            · cases h
          · simp only [List.takeWhile, ha, hb, ne_eq, not_false_eq_true, decide_True]
            refine ⟨⟨fun h => List.Lex.rel (by omega), fun h => ?_⟩,
              ⟨fun h => by omega, fun h => ?_⟩⟩
            · have := lex_cons_lt_of_ne h hab
              omega
            · exact absurd (List.cons.inj h).1 hab

theorem cmp_cgpa_asc_le_zero_iff (a b : Student) : cmp_cgpa_asc a b ≤ 0 ↔ a.cgpa ≤ b.cgpa := by
  unfold cmp_cgpa_asc
  split_ifs with h1 h2
  · simp [h1.le]
  · simp [not_le.mpr h2]
  · have : a.cgpa = b.cgpa := le_antisymm (not_lt.mp h2) (not_lt.mp h1)
    simp [this]

theorem cmp_cgpa_desc_le_zero_iff (a b : Student) : cmp_cgpa_desc a b ≤ 0 ↔ b.cgpa ≤ a.cgpa := by
  unfold cmp_cgpa_desc cmp_cgpa_asc
  split_ifs with h1 h2
  · simp [not_le.mpr h1]
  · simp [le_of_lt h2]
  · have : a.cgpa = b.cgpa := le_antisymm (not_lt.mp h2) (not_lt.mp h1)
    simp [this]

theorem cmp_name_asc_le_zero_iff (a b : Student) :
    cmp_name_asc a b ≤ 0 ↔ name_key a ≤ name_key b := by
  have h := strcasecmp_sign a.name.toList b.name.toList
  unfold cmp_name_asc name_key
  rw [le_iff_lt_or_eq, le_iff_lt_or_eq, h.1, h.2]
  exact Iff.rfl

theorem cmp_name_asc_eq_zero_iff (a b : Student) :
    cmp_name_asc a b = 0 ↔ name_key a = name_key b :=
  (strcasecmp_sign a.name.toList b.name.toList).2

/-- A sorted permutation of a list is unique when no two different members
compare equal. -/
theorem pairwise_perm_unique {α : Type} (R : α → α → Prop) :
    ∀ (l₁ l₂ : List α), l₁.Perm l₂ → l₁.Pairwise R → l₂.Pairwise R →
      (∀ a ∈ l₁, ∀ b ∈ l₁, R a b → R b a → a = b) → l₁ = l₂ := by
  intro l₁
  induction l₁ with
  | nil =>
    intro l₂ hp _ _ _
    exact hp.nil_eq
  | cons a t ih =>
    intro l₂ hp h1 h2 anti
    cases l₂ with
    | nil => exact absurd hp.symm.nil_eq (by simp)
    | cons b u =>
      have hab : a = b := by
        have ha : a ∈ b :: u := hp.subset (List.mem_cons_self a t)
        have hb : b ∈ a :: t := hp.symm.subset (List.mem_cons_self b u)
        rcases List.mem_cons.mp ha with ha | ha
        · exact ha
        · rcases List.mem_cons.mp hb with hb | hb
          · exact hb.symm
          · exact anti a (List.mem_cons_self a t) b (List.mem_cons_of_mem a hb)
              ((List.pairwise_cons.mp h1).1 b hb) ((List.pairwise_cons.mp h2).1 a ha)
      subst hab
      have hp' : t.Perm u := (List.perm_cons a).mp hp
      have := ih u hp' (List.pairwise_cons.mp h1).2 (List.pairwise_cons.mp h2).2
        (fun x hx y hy => anti x (List.mem_cons_of_mem a hx) y (List.mem_cons_of_mem a hy))
      rw [this]

theorem qsort_result_unique {α : Type} (cmp : α → α → Int) (l l₁ l₂ : List α)
    (h1 : qsort_result cmp l l₁) (h2 : qsort_result cmp l l₂)
    (anti : ∀ a ∈ l, ∀ b ∈ l, cmp a b ≤ 0 → cmp b a ≤ 0 → a = b) : l₁ = l₂ := by
  refine pairwise_perm_unique _ l₁ l₂ (h1.1.trans h2.1.symm) h1.2 h2.2 ?_
  intro a ha b hb
  exact anti a (h1.1.subset ha) b (h1.1.subset hb)

/-- A comparison function that orders by a key in a linear order admits a
sorted permutation of every list: `qsort` has a result. -/
theorem exists_qsort_result {α κ : Type} [LinearOrder κ] (cmp : α → α → Int) (key : α → κ)
    (hkey : ∀ a b, cmp a b ≤ 0 ↔ key a ≤ key b) (l : List α) :
    ∃ out, qsort_result cmp l out := by
  haveI : IsTotal α (fun a b => cmp a b ≤ 0) :=
    ⟨fun a b => by
      rcases le_total (key a) (key b) with h | h
      · exact Or.inl ((hkey a b).mpr h)
      · exact Or.inr ((hkey b a).mpr h)⟩
  haveI : IsTrans α (fun a b => cmp a b ≤ 0) :=
    ⟨fun a b c hab hbc => (hkey a c).mpr (le_trans ((hkey a b).mp hab) ((hkey b c).mp hbc))⟩
  exact ⟨l.insertionSort (fun a b => cmp a b ≤ 0), List.perm_insertionSort _ l,
    List.sorted_insertionSort _ l⟩

theorem exists_sort_cgpa_asc (l : List Student) : ∃ out, qsort_result cmp_cgpa_asc l out :=
  exists_qsort_result cmp_cgpa_asc Student.cgpa cmp_cgpa_asc_le_zero_iff l

theorem exists_sort_cgpa_desc (l : List Student) : ∃ out, qsort_result cmp_cgpa_desc l out :=
  exists_qsort_result cmp_cgpa_desc (fun s => OrderDual.toDual s.cgpa)
    (fun a b => by rw [cmp_cgpa_desc_le_zero_iff]; exact Iff.rfl) l

theorem exists_sort_name (l : List Student) : ∃ out, qsort_result cmp_name_asc l out :=
  exists_qsort_result cmp_name_asc name_key cmp_name_asc_le_zero_iff l

theorem sort_students_with_short (cmp : Student → Student → Int) (s : List Student)
    (out : Status × List Student) (h : s.length < 2) :
    sort_students_with cmp s out ↔ out = (Status.insufficientRecords, s) := by
  unfold sort_students_with
  rw [if_pos (by omega)]

theorem sort_students_with_long (cmp : Student → Student → Int) (s : List Student)
    (out : Status × List Student) (h : 2 ≤ s.length) :
    sort_students_with cmp s out ↔ (out.1 = Status.ok ∧ qsort_result cmp s out.2) := by
  unfold sort_students_with
  rw [if_neg (by omega)]

theorem add_example_marks (s : List Student) (id name : String)
    (hcap : s.length < MAX_STUDENTS) (hfresh : ∀ r ∈ s, r.id ≠ id) :
    add_student_record s id name (fun i => some (example_marks i)) =
      (Status.ok, s ++ [calc_total_and_cgpa
        { id := id, name := name, marks := example_marks, total := 0, cgpa := 0 }]) := by
  have hmarks : (fun i => clamp_mark ((some (example_marks i)).getD 0)) = example_marks := by
    funext i
    fin_cases i <;> rfl
  rcases add_student_record_cases s id name (fun i => some (example_marks i)) with
    ⟨hc, -⟩ | ⟨-, ⟨r, hr, he⟩, -⟩ | ⟨-, -, he⟩
  · omega
  · exact absurd he (hfresh r hr)
  · rw [he]
    simp only [hmarks]

theorem tie_store_reach : StudentReach tie_store := by
  have h1 := StudentReach.add "s1" "Asha" (fun i => some (example_marks i)) StudentReach.init
  rw [add_example_marks [] "s1" "Asha" (by decide) (by simp)] at h1
  have h2 := StudentReach.add "s2" "ASHA" (fun i => some (example_marks i)) h1
  rw [add_example_marks _ "s2" "ASHA" (by decide) (by
    intro r hr
    simp only [List.nil_append, List.mem_singleton] at hr
    rw [hr]
    decide)] at h2
  exact h2

theorem tie_cgpa : tie_a.cgpa = tie_b.cgpa := rfl

theorem tie_name_key : name_key tie_a = name_key tie_b := by decide

theorem tie_ne : tie_a ≠ tie_b := by
  intro h
  have : tie_a.id = tie_b.id := by rw [h]
  exact absurd this (by decide)

theorem tie_a_cgpa : tie_a.cgpa = 8 := by
  show cgpa_of_total (sum_marks example_marks) = 8
  have : sum_marks example_marks = 400 := by decide
  rw [this, cgpa_of_total_400]

theorem zero_student_cgpa : zero_student.cgpa = 0 := by
  show cgpa_of_total (sum_marks (fun _ => 0)) = 0
  have : sum_marks (fun _ => 0) = 0 := by decide
  rw [this, cgpa_of_total_zero]

theorem cmp_tie (cmp : Student → Student → Int)
    (h : cmp = cmp_cgpa_asc ∨ cmp = cmp_cgpa_desc ∨ cmp = cmp_name_asc) (x y : Student)
    (hx : x = tie_a ∨ x = tie_b) (hy : y = tie_a ∨ y = tie_b) : cmp x y ≤ 0 := by
  have hc : x.cgpa = y.cgpa := by
    rcases hx with rfl | rfl <;> rcases hy with rfl | rfl <;> rfl
  have hn : name_key x = name_key y := by
    rcases hx with rfl | rfl <;> rcases hy with rfl | rfl <;> decide
  rcases h with rfl | rfl | rfl
  · rw [cmp_cgpa_asc_le_zero_iff, hc]
  · rw [cmp_cgpa_desc_le_zero_iff, hc]
  · rw [cmp_name_asc_le_zero_iff, hn]

theorem tie_store_sorted (cmp : Student → Student → Int)
    (h : cmp = cmp_cgpa_asc ∨ cmp = cmp_cgpa_desc ∨ cmp = cmp_name_asc) :
    sort_students_with cmp tie_store (Status.ok, tie_store) ∧
    sort_students_with cmp tie_store (Status.ok, tie_store.reverse) := by
  have hlen : 2 ≤ tie_store.length := by decide
  rw [sort_students_with_long cmp _ _ hlen, sort_students_with_long cmp _ _ hlen]
  refine ⟨⟨rfl, List.Perm.refl _, ?_⟩, ⟨rfl, List.reverse_perm _, ?_⟩⟩
  · show [tie_a, tie_b].Pairwise _
    rw [List.pairwise_pair]
    exact cmp_tie cmp h _ _ (Or.inl rfl) (Or.inr rfl)
  · show [tie_b, tie_a].Pairwise _
    rw [List.pairwise_pair]
    exact cmp_tie cmp h _ _ (Or.inr rfl) (Or.inl rfl)

theorem tie_store_ne_reverse : tie_store ≠ tie_store.reverse := by
  intro h
  have h' : [tie_a, tie_b] = [tie_b, tie_a] := h
  exact tie_ne (List.cons.inj h').1

/-- C11 (as stated) fails: the reachable store `tie_store` holds two different
records with the same cgpa.  Leaving the array as it is meets the contract of
`qsort` for the descending sort and again for the ascending sort (it is what
a stable sort does), yet the result is not the reverse of the descending
order. -/
theorem sort_desc_then_asc_keeps_ties :
    StudentReach tie_store ∧ 2 ≤ tie_store.length ∧
    sort_students_by_cgpa_desc tie_store (Status.ok, tie_store) ∧
    sort_students_by_cgpa_asc tie_store (Status.ok, tie_store) ∧
    tie_store ≠ tie_store.reverse :=
  ⟨tie_store_reach, by decide, (tie_store_sorted cmp_cgpa_desc (Or.inr (Or.inl rfl))).1,
    (tie_store_sorted cmp_cgpa_asc (Or.inl rfl)).1, tie_store_ne_reverse⟩

/-- C11 (amended). For every student store with at least 2 records in which no
two different records have the same cgpa, sorting by cgpa descending and then
by cgpa ascending succeeds both times and yields exactly the reverse of the
order produced by the descending sort. -/
theorem sort_desc_then_asc_reverse (s : List Student) (d a : Status × List Student)
    (hlen : 2 ≤ s.length) (hties : ∀ x ∈ s, ∀ y ∈ s, x.cgpa = y.cgpa → x = y)
    (hd : sort_students_by_cgpa_desc s d) (ha : sort_students_by_cgpa_asc d.2 a) :
    d.1 = Status.ok ∧ a.1 = Status.ok ∧ a.2 = d.2.reverse := by
  obtain ⟨hd1, hdp, hds⟩ := (sort_students_with_long _ s d hlen).mp hd
  have hlen' : 2 ≤ d.2.length := by rw [hdp.length_eq]; exact hlen
  obtain ⟨ha1, hares⟩ := (sort_students_with_long _ d.2 a hlen').mp ha
  refine ⟨hd1, ha1, ?_⟩
  have hrev : qsort_result cmp_cgpa_asc d.2 d.2.reverse := by
    refine ⟨List.reverse_perm _, ?_⟩
    rw [List.pairwise_reverse]
    refine hds.imp ?_
    intro x y hxy
    rw [cmp_cgpa_asc_le_zero_iff]
    exact (cmp_cgpa_desc_le_zero_iff x y).mp hxy
  refine qsort_result_unique cmp_cgpa_asc d.2 _ _ hares hrev ?_
  intro x hx y hy hxy hyx
  rw [cmp_cgpa_asc_le_zero_iff] at hxy hyx
  exact hties x (hdp.subset hx) y (hdp.subset hy) (le_antisymm hxy hyx)

theorem ranked_store_no_ties : ∀ x ∈ ranked_store, ∀ y ∈ ranked_store,
    x.cgpa = y.cgpa → x = y := by
  intro x hx y hy hxy
  have h08 : (0 : ℚ) ≠ 8 := by norm_num
  simp only [ranked_store, List.mem_cons, List.mem_singleton, List.not_mem_nil, or_false] at hx hy
  rcases hx with rfl | rfl <;> rcases hy with rfl | rfl
  · rfl
  · rw [zero_student_cgpa, tie_a_cgpa] at hxy
    exact absurd hxy h08
  · rw [zero_student_cgpa, tie_a_cgpa] at hxy
    exact absurd hxy.symm h08
  · rfl

theorem ranked_store_sort_desc :
    sort_students_by_cgpa_desc ranked_store (Status.ok, [tie_a, zero_student]) := by
  have hlen : 2 ≤ ranked_store.length := by decide
  refine (sort_students_with_long _ _ _ hlen).mpr ⟨rfl, List.Perm.swap _ _ _, ?_⟩
  show [tie_a, zero_student].Pairwise _
  rw [List.pairwise_pair, cmp_cgpa_desc_le_zero_iff, zero_student_cgpa, tie_a_cgpa]
  norm_num

theorem ranked_store_sort_asc :
    sort_students_by_cgpa_asc [tie_a, zero_student] (Status.ok, [zero_student, tie_a]) := by
  have hlen : 2 ≤ [tie_a, zero_student].length := by decide
  refine (sort_students_with_long _ _ _ hlen).mpr ⟨rfl, List.Perm.swap _ _ _, ?_⟩
  show [zero_student, tie_a].Pairwise _
  rw [List.pairwise_pair, cmp_cgpa_asc_le_zero_iff, zero_student_cgpa, tie_a_cgpa]
  norm_num

theorem sort_desc_then_asc_reverse_witness :
    2 ≤ ranked_store.length ∧
    sort_students_by_cgpa_desc ranked_store (Status.ok, [tie_a, zero_student]) ∧
    sort_students_by_cgpa_asc [tie_a, zero_student] (Status.ok, [zero_student, tie_a]) ∧
    [zero_student, tie_a] = [tie_a, zero_student].reverse :=
  ⟨by decide, ranked_store_sort_desc, ranked_store_sort_asc,
    (sort_desc_then_asc_reverse ranked_store (Status.ok, [tie_a, zero_student])
      (Status.ok, [zero_student, tie_a]) (by decide) ranked_store_no_ties
      ranked_store_sort_desc ranked_store_sort_asc).2.2⟩

/-- Under the contract of `qsort` alone: when no two different records of the
store compare equal under the key, every result of a second sort has the same
record order as the result of the first. -/
theorem sort_idempotent_without_ties (s : List Student) (o₁ o₂ : Status × List Student) :
    ((∀ x ∈ s, ∀ y ∈ s, x.cgpa = y.cgpa → x = y) →
      sort_students_by_cgpa_asc s o₁ → sort_students_by_cgpa_asc o₁.2 o₂ → o₂.2 = o₁.2) ∧
    ((∀ x ∈ s, ∀ y ∈ s, x.cgpa = y.cgpa → x = y) →
      sort_students_by_cgpa_desc s o₁ → sort_students_by_cgpa_desc o₁.2 o₂ → o₂.2 = o₁.2) ∧
    ((∀ x ∈ s, ∀ y ∈ s, name_key x = name_key y → x = y) →
      sort_students_by_name s o₁ → sort_students_by_name o₁.2 o₂ → o₂.2 = o₁.2) := by
  have main : ∀ (cmp : Student → Student → Int),
      (∀ x ∈ s, ∀ y ∈ s, cmp x y ≤ 0 → cmp y x ≤ 0 → x = y) →
      sort_students_with cmp s o₁ → sort_students_with cmp o₁.2 o₂ → o₂.2 = o₁.2 := by
    intro cmp anti h1 h2
    by_cases hlen : s.length < 2
    · have e1 := (sort_students_with_short cmp s o₁ hlen).mp h1
      rw [e1] at h2 ⊢
      have e2 := (sort_students_with_short cmp s o₂ hlen).mp h2
      rw [e2]
    · have hlen2 : 2 ≤ s.length := by omega
      obtain ⟨-, hp1, hs1⟩ := (sort_students_with_long cmp s o₁ hlen2).mp h1
      have hlen' : 2 ≤ o₁.2.length := by rw [hp1.length_eq]; exact hlen2
      obtain ⟨-, hres2⟩ := (sort_students_with_long cmp o₁.2 o₂ hlen').mp h2
      refine qsort_result_unique cmp o₁.2 _ _ hres2 ⟨List.Perm.refl _, hs1⟩ ?_
      intro x hx y hy
      exact anti x (hp1.subset hx) y (hp1.subset hy)
  refine ⟨fun hties => main cmp_cgpa_asc ?_, fun hties => main cmp_cgpa_desc ?_,
    fun hties => main cmp_name_asc ?_⟩
  · intro x hx y hy hxy hyx
    rw [cmp_cgpa_asc_le_zero_iff] at hxy hyx
    exact hties x hx y hy (le_antisymm hxy hyx)
  · intro x hx y hy hxy hyx
    rw [cmp_cgpa_desc_le_zero_iff] at hxy hyx
    exact hties x hx y hy (le_antisymm hyx hxy)
  · intro x hx y hy hxy hyx
    rw [cmp_name_asc_le_zero_iff] at hxy hyx
    exact hties x hx y hy (le_antisymm hxy hyx)

theorem sort_students_with_ordered (cmp : Student → Student → Int) (R : Student → Student → Prop)
    (hR : ∀ a b, cmp a b ≤ 0 → R a b) (s : List Student) (out : Status × List Student)
    (hlen : 2 ≤ s.length) (h : sort_students_with cmp s out) :
    out.1 = Status.ok ∧ out.2.Perm s ∧ out.2.length = s.length ∧ out.2.Pairwise R := by
  obtain ⟨h1, hp, hs⟩ := (sort_students_with_long cmp s out hlen).mp h
  exact ⟨h1, hp, hp.length_eq, hs.imp (fun {a b} hab => hR a b hab)⟩

theorem exists_sort_students_with (cmp : Student → Student → Int) (s : List Student)
    (hlen : 2 ≤ s.length) (hex : ∃ l, qsort_result cmp s l) :
    ∃ out, sort_students_with cmp s out := by
  obtain ⟨l, hl⟩ := hex
  exact ⟨(Status.ok, l), (sort_students_with_long cmp s _ hlen).mpr ⟨rfl, hl⟩⟩

/-- C13. With fewer than 2 records each sort operation reports
InsufficientRecords and leaves the store unchanged.  With 2 or more records
each sort operation has a result, and every result reports success and holds a
permutation of the original records (same records, same count) ordered by the
key: cgpa non-decreasing for the ascending sort, cgpa non-increasing for the
descending sort, and lower-cased name non-decreasing in lexicographic order
for the name sort. -/
theorem sort_students_spec (s : List Student) :
    (s.length < 2 → ∀ out,
      (sort_students_by_cgpa_asc s out ↔ out = (Status.insufficientRecords, s)) ∧
      (sort_students_by_cgpa_desc s out ↔ out = (Status.insufficientRecords, s)) ∧
      (sort_students_by_name s out ↔ out = (Status.insufficientRecords, s))) ∧
    (2 ≤ s.length →
      (∃ out, sort_students_by_cgpa_asc s out) ∧
      (∃ out, sort_students_by_cgpa_desc s out) ∧
      (∃ out, sort_students_by_name s out) ∧
      (∀ out, sort_students_by_cgpa_asc s out →
        out.1 = Status.ok ∧ out.2.Perm s ∧ out.2.length = s.length ∧
          out.2.Pairwise (fun a b => a.cgpa ≤ b.cgpa)) ∧
      (∀ out, sort_students_by_cgpa_desc s out →
        out.1 = Status.ok ∧ out.2.Perm s ∧ out.2.length = s.length ∧
          out.2.Pairwise (fun a b => b.cgpa ≤ a.cgpa)) ∧
      (∀ out, sort_students_by_name s out →
        out.1 = Status.ok ∧ out.2.Perm s ∧ out.2.length = s.length ∧
          out.2.Pairwise (fun a b => name_key a ≤ name_key b))) := by
  refine ⟨fun hlen out => ⟨sort_students_with_short _ s out hlen,
    sort_students_with_short _ s out hlen, sort_students_with_short _ s out hlen⟩, ?_⟩
  intro hlen
  refine ⟨exists_sort_students_with _ s hlen (exists_sort_cgpa_asc s),
    exists_sort_students_with _ s hlen (exists_sort_cgpa_desc s),
    exists_sort_students_with _ s hlen (exists_sort_name s), ?_, ?_, ?_⟩
  · intro out h
    exact sort_students_with_ordered cmp_cgpa_asc _
      (fun a b => (cmp_cgpa_asc_le_zero_iff a b).mp) s out hlen h
  · intro out h
    exact sort_students_with_ordered cmp_cgpa_desc _
      (fun a b => (cmp_cgpa_desc_le_zero_iff a b).mp) s out hlen h
  · intro out h
    exact sort_students_with_ordered cmp_name_asc _
      (fun a b => (cmp_name_asc_le_zero_iff a b).mp) s out hlen h

theorem sort_students_spec_witness :
    (sort_students_by_name [tie_a] (Status.insufficientRecords, [tie_a])) ∧
    (∃ out, sort_students_by_cgpa_desc ranked_store out) ∧
    ([tie_a, zero_student].Perm ranked_store ∧
      [tie_a, zero_student].Pairwise (fun a b => b.cgpa ≤ a.cgpa)) :=
  ⟨((sort_students_spec [tie_a]).1 (by decide) _).2.2.mpr rfl,
    ((sort_students_spec ranked_store).2 (by decide)).2.1,
    have h := ((sort_students_spec ranked_store).2 (by decide)).2.2.2.2.1
      (Status.ok, [tie_a, zero_student]) ranked_store_sort_desc
    ⟨h.2.1, h.2.2.2⟩⟩

/-! ### highest_lowest_cgpa -/

theorem hi_lo_loop (s : List Student) (k : Nat) :
    ∀ st, st = (List.range k).foldl (fun st j => hi_lo_step s (1 + j) st) (0, 0) →
      (st.1 < k + 1 ∧ (∀ j, j < k + 1 → cgpa_at s j ≤ cgpa_at s st.1) ∧
        (∀ j, j < st.1 → cgpa_at s j < cgpa_at s st.1)) ∧
      (st.2 < k + 1 ∧ (∀ j, j < k + 1 → cgpa_at s st.2 ≤ cgpa_at s j) ∧
        (∀ j, j < st.2 → cgpa_at s st.2 < cgpa_at s j)) := by
  induction k with
  | zero =>
    intro st hst
    simp only [List.range_zero, List.foldl_nil] at hst
    subst hst
    refine ⟨⟨by omega, ?_, ?_⟩, ⟨by omega, ?_, ?_⟩⟩
    · intro j hj
      have : j = 0 := by omega
      subst this
      exact le_refl _
    · intro j hj
      exact absurd hj (Nat.not_lt_zero j)
    · intro j hj
      have : j = 0 := by omega
      subst this
      exact le_refl _
    · intro j hj
      exact absurd hj (Nat.not_lt_zero j)
  | succ k ih =>
    intro st hst
    rw [List.range_succ, List.foldl_append] at hst
    simp only [List.foldl_cons, List.foldl_nil] at hst
    obtain ⟨⟨hhi, hmax, hfirst⟩, ⟨hlo, hmin, hfirstlo⟩⟩ := ih _ rfl
    set prev := (List.range k).foldl (fun st j => hi_lo_step s (1 + j) st) (0, 0) with hprev
    subst hst
    unfold hi_lo_step
    refine ⟨?_, ?_⟩
    · dsimp only
      split_ifs with hc
      · refine ⟨by omega, ?_, ?_⟩
        · intro j hj
          rcases Nat.lt_or_ge j (k + 1) with h | h
          · exact le_trans (hmax j h) hc.le
          · have : j = 1 + k := by omega
            rw [this]
        · intro j hj
          exact lt_of_le_of_lt (hmax j (by omega)) hc
      · refine ⟨by omega, ?_, hfirst⟩
        intro j hj
        rcases Nat.lt_or_ge j (k + 1) with h | h
        · exact hmax j h
        · have : j = 1 + k := by omega
          rw [this]
          exact not_lt.mp hc
    · dsimp only
      split_ifs with hc
      · refine ⟨by omega, ?_, ?_⟩
        · intro j hj
          rcases Nat.lt_or_ge j (k + 1) with h | h
          · exact le_trans hc.le (hmin j h)
          · have : j = 1 + k := by omega
            rw [this]
        · intro j hj
          exact lt_of_lt_of_le hc (hmin j (by omega))
      · refine ⟨by omega, ?_, hfirstlo⟩
        intro j hj
        rcases Nat.lt_or_ge j (k + 1) with h | h
        · exact hmin j h
        · have : j = 1 + k := by omega
          rw [this]
          exact not_lt.mp hc

theorem cgpa_at_getElem? (s : List Student) (i : Nat) (r : Student) (h : s[i]? = some r) :
    cgpa_at s i = r.cgpa := by
  unfold cgpa_at
  rw [h]

/-- C14. On the empty store `highest_lowest_cgpa` reports NoRecords.  On a
non-empty store it selects as highest the record at the smallest index whose
cgpa is the maximum over all records, and as lowest the record at the smallest
index whose cgpa is the minimum; with exactly one record both are that
record. -/
theorem highest_lowest_cgpa_spec (s : List Student) :
    (s = [] → highest_lowest_cgpa s = (Status.noRecords, none)) ∧
    (s ≠ [] → ∃ hi lo rhi rlo, highest_lowest_cgpa s = (Status.ok, some (hi, lo)) ∧
      s[hi]? = some rhi ∧ s[lo]? = some rlo ∧
      (∀ r ∈ s, r.cgpa ≤ rhi.cgpa) ∧
      (∀ j r, j < hi → s[j]? = some r → r.cgpa < rhi.cgpa) ∧
      (∀ r ∈ s, rlo.cgpa ≤ r.cgpa) ∧
      (∀ j r, j < lo → s[j]? = some r → rlo.cgpa < r.cgpa)) ∧
    (∀ r, s = [r] → highest_lowest_cgpa s = (Status.ok, some (0, 0))) := by
  refine ⟨?_, ?_, ?_⟩
  · intro h
    subst h
    rfl
  · intro hne
    have hpos : 0 < s.length := List.length_pos.mpr hne
    have hres : highest_lowest_cgpa s =
        (Status.ok, some ((List.range (s.length - 1)).foldl
          (fun st j => hi_lo_step s (1 + j) st) (0, 0))) := by
      unfold highest_lowest_cgpa for_loop
      rw [if_neg (by omega)]
    obtain ⟨⟨hhi, hmax, hfirst⟩, ⟨hlo, hmin, hfirstlo⟩⟩ := hi_lo_loop s (s.length - 1) _ rfl
    set st := (List.range (s.length - 1)).foldl (fun st j => hi_lo_step s (1 + j) st) (0, 0)
      with hst
    have hk : s.length - 1 + 1 = s.length := by omega
    rw [hk] at hhi hlo hmax hmin
    have ehi : s[st.1]? = some (s[st.1]) := List.getElem?_eq_getElem hhi
    have elo : s[st.2]? = some (s[st.2]) := List.getElem?_eq_getElem hlo
    refine ⟨st.1, st.2, s[st.1], s[st.2], hres, ehi, elo, ?_, ?_, ?_, ?_⟩
    · intro r hr
      obtain ⟨j, hj, rfl⟩ := List.getElem_of_mem hr
      have := hmax j hj
      rwa [cgpa_at_getElem? s j _ (List.getElem?_eq_getElem hj),
        cgpa_at_getElem? s st.1 _ ehi] at this
    · intro j r hj hr
      have := hfirst j hj
      rwa [cgpa_at_getElem? s j r hr, cgpa_at_getElem? s st.1 _ ehi] at this
    · intro r hr
      obtain ⟨j, hj, rfl⟩ := List.getElem_of_mem hr
      have := hmin j hj
      rwa [cgpa_at_getElem? s j _ (List.getElem?_eq_getElem hj),
        cgpa_at_getElem? s st.2 _ elo] at this
    · intro j r hj hr
      have := hfirstlo j hj
      rwa [cgpa_at_getElem? s j r hr, cgpa_at_getElem? s st.2 _ elo] at this
  · intro r h
    subst h
    rfl

theorem highest_lowest_cgpa_spec_witness :
    highest_lowest_cgpa [] = (Status.noRecords, none) ∧
    highest_lowest_cgpa [tie_a] = (Status.ok, some (0, 0)) ∧
    ∃ hi lo rhi rlo, highest_lowest_cgpa tie_store = (Status.ok, some (hi, lo)) ∧
      tie_store[hi]? = some rhi ∧ tie_store[lo]? = some rlo ∧
      (∀ r ∈ tie_store, r.cgpa ≤ rhi.cgpa) ∧
      (∀ j r, j < hi → tie_store[j]? = some r → r.cgpa < rhi.cgpa) ∧
      (∀ r ∈ tie_store, rlo.cgpa ≤ r.cgpa) ∧
      (∀ j r, j < lo → tie_store[j]? = some r → rlo.cgpa < r.cgpa) :=
  ⟨(highest_lowest_cgpa_spec []).1 rfl, (highest_lowest_cgpa_spec [tie_a]).2.2 tie_a rfl,
    (highest_lowest_cgpa_spec tie_store).2.1 (List.cons_ne_nil _ _)⟩

theorem load_save_store {α : Type} (cap : Nat) (old : Option (FileImage α)) (arr : List α)
    (h : arr.length ≤ cap) : load_store cap (save_store true old arr) = some arr := by
  unfold save_store load_store
  simp only [if_true]
  by_cases h0 : arr.length = 0
  · have : arr = [] := List.length_eq_zero.mp h0
    subst this
    simp
  · have hpos : 0 < arr.length := Nat.pos_of_ne_zero h0
    have hne : ¬ ((arr.length : Int) = 0) := by omega
    simp only [hpos, if_true]
    rw [if_neg hne, if_pos ⟨by omega, by omega, le_refl _⟩]
    simp

/-- C17. Saving a store of N records (N at most the capacity of its array)
writes the count N followed by the N records, and loading that file into the
empty store of a fresh process yields exactly the same N records in the same
order, for the account store and for the student store alike. -/
theorem save_then_load (accounts : List Account) (students : List Student)
    (olda : Option (FileImage Account)) (olds : Option (FileImage Student))
    (ha : accounts.length ≤ MAX_USERS) (hs : students.length ≤ MAX_STUDENTS) :
    (∃ img, save_accounts true olda accounts = some img ∧
      img.count = (accounts.length : Int) ∧
      img.records = (if 0 < accounts.length then accounts else [])) ∧
    load_accounts (save_accounts true olda accounts) = some accounts ∧
    (∃ img, save_students true olds students = some img ∧
      img.count = (students.length : Int) ∧
      img.records = (if 0 < students.length then students else [])) ∧
    load_students (save_students true olds students) = some students :=
  ⟨⟨_, rfl, rfl, rfl⟩, load_save_store MAX_USERS olda accounts ha,
    ⟨_, rfl, rfl, rfl⟩, load_save_store MAX_STUDENTS olds students hs⟩

theorem save_then_load_witness :
    [default_admin, roll_account 7].length ≤ MAX_USERS ∧ tie_store.length ≤ MAX_STUDENTS ∧
    load_accounts (save_accounts true none [default_admin, roll_account 7]) =
      some [default_admin, roll_account 7] ∧
    load_students (save_students true none tie_store) = some tie_store ∧
    load_students (save_students true none []) = some [] :=
  have h := save_then_load [default_admin, roll_account 7] tie_store none none
    (by decide) (by decide)
  ⟨by decide, by decide, h.2.1, h.2.2.2,
    (save_then_load [] [] none none (by decide) (by decide)).2.2.2⟩

theorem delete_then_find_student_witness :
    ranked_store.Pairwise (fun a b => a.id ≠ b.id) ∧
    (∃ r ∈ ranked_store, r.id = "s3") ∧
    (delete_student_record ranked_store "s3").1 = Status.ok ∧
    find_student_by_id (delete_student_record ranked_store "s3").2 "s3" = none ∧
    student_of_id (delete_student_record ranked_store "s3").2 "s1" =
      student_of_id ranked_store "s1" :=
  have hu : ranked_store.Pairwise (fun a b => a.id ≠ b.id) := by
    show [zero_student, tie_a].Pairwise _
    rw [List.pairwise_pair]
    decide
  have hex : ∃ r ∈ ranked_store, r.id = "s3" := ⟨zero_student, List.mem_cons_self _ _, rfl⟩
  have h := delete_then_find_student ranked_store "s3" hu hex
  ⟨hu, hex, h.1, h.2.1, h.2.2 "s1" (by decide)⟩

/-! ## Runs of the sort operations -/

theorem roll_length (i : Nat) : (roll i).length = 4 := by
  simp [roll, String.length]

theorem signup_flow_on_full_accounts (id username password : String)
    (hid : id.length ≠ 4) (hun : username.length ≠ 4) :
    find_account_by_id full_accounts id = none ∧
    find_account_by_username full_accounts username = none ∧
    signup_flow full_accounts id username password = none := by
  have hlen : full_accounts.length = MAX_USERS := by simp [full_accounts]
  have hne : ∀ a ∈ full_accounts, a.id ≠ id ∧ a.username ≠ username := by
    intro a ha
    obtain ⟨i, -, rfl⟩ := List.mem_map.mp ha
    refine ⟨fun h => hid ?_, fun h => hun ?_⟩
    · rw [← h]; exact roll_length i
    · rw [← h]; exact roll_length i
  have h1 : find_account_by_id full_accounts id = none := by
    unfold find_account_by_id
    rw [scan_from_eq_none_iff]
    intro a ha
    simpa using (hne a ha).1
  have h2 : find_account_by_username full_accounts username = none :=
    (find_account_by_username_eq_none_iff _ _).mpr (fun a ha => (hne a ha).2)
  refine ⟨h1, h2, ?_⟩
  unfold signup_flow array_push
  rw [h1, h2, hlen]
  simp

/-- C3 (failing input). The store `full_accounts` is reached from the empty
store by 1000 signups; its usernames and its ids are pairwise distinct.  One
more signup, with an id and a username that no stored account has, passes both
duplicate checks and then performs `accounts[accounts_count++] = a` past the
end of the array: the step has no defined result, so the sequence does not end
in a store for which uniqueness is guaranteed. -/
theorem signup_overflow_breaks_uniqueness :
    AccountReach full_accounts ∧ full_accounts.length = MAX_USERS ∧
    full_accounts.Pairwise (fun a b => a.username ≠ b.username) ∧
    full_accounts.Pairwise (fun a b => a.id ≠ b.id) ∧
    find_account_by_id full_accounts "r1000" = none ∧
    find_account_by_username full_accounts "zoe" = none ∧
    signup_flow full_accounts "r1000" "zoe" "pw" = none := by
  have hr : AccountReach full_accounts := roll_accounts_reach MAX_USERS (le_refl _)
  have hu := account_reach_nodup full_accounts hr
  have hs := signup_flow_on_full_accounts "r1000" "zoe" "pw" (by decide) (by decide)
  exact ⟨hr, by simp [full_accounts], List.pairwise_map.mp hu.1, List.pairwise_map.mp hu.2,
    hs.1, hs.2.1, hs.2.2⟩

/-- C19 (failing input). The store `full_accounts` is reached from the empty
store by 1000 signups and every account in it has role 'S'.  One more signup
with a fresh id and username performs `accounts[accounts_count++] = a` past
the end of the array: the step has no defined result, so the sequence does not
end in a store whose roles are guaranteed to be 'A' or 'S'. -/
theorem signup_overflow_breaks_role_validity :
    AccountReach full_accounts ∧ full_accounts.length = MAX_USERS ∧
    (∀ a ∈ full_accounts, a.role = 'S') ∧
    signup_flow full_accounts "r1001" "yan" "pw" = none := by
  refine ⟨roll_accounts_reach MAX_USERS (le_refl _), by simp [full_accounts], ?_,
    (signup_flow_on_full_accounts "r1001" "yan" "pw" (by decide) (by decide)).2.2⟩
  intro a ha
  obtain ⟨i, -, rfl⟩ := List.mem_map.mp ha
  rfl

/-- C7. In every student store the program's operations build, for every id
present in it and every five inputs none of which is an integer in [0,100]
(for example all -1), modify-student succeeds and leaves the store as it was:
every mark, the total and the cgpa of the record with that id are unchanged. -/
theorem modify_out_of_range_unchanged (s : List Student) (id : String)
    (input : Fin 5 → Option Int) (hreach : StudentReach s) (hid : ∃ r ∈ s, r.id = id)
    (hin : ∀ i m, input i = some m → m < 0 ∨ 100 < m) :
    modify_student_record s id input = (Status.ok, s) ∧
    ∃ idx r, find_student_by_id s id = some idx ∧ s[idx]? = some r ∧
      ∃ r', (modify_student_record s id input).2[idx]? = some r' ∧
        (∀ i, r'.marks i = r.marks i) ∧ r'.total = r.total ∧ r'.cgpa = r.cgpa := by
  obtain ⟨pre, r, post, hs, hr, hpre, hfind⟩ := exists_first_student s id hid
  have hrs : r ∈ s := by rw [hs]; simp
  obtain ⟨-, ht, hc⟩ := student_reach_consistent s hreach r hrs
  have hm := modify_marks_out_of_range r.marks input hin
  have he := modify_student_record_found pre post r id input hr hpre
  rw [hm] at he
  have h1 : (calc_total_and_cgpa r).total = r.total := by
    rw [ht]; exact sum_marks_eq r.marks
  have h2 : (calc_total_and_cgpa r).cgpa = r.cgpa := by
    rw [hc, ← h1]; rfl
  have h3 : calc_total_and_cgpa r = r := by
    cases r
    simp only [calc_total_and_cgpa] at h1 h2 ⊢
    simp only [Student.mk.injEq, true_and]
    exact ⟨h1, h2⟩
  have hres : modify_student_record s id input = (Status.ok, s) := by
    rw [hs, he]
    show (Status.ok, pre ++ calc_total_and_cgpa r :: post) = _
    rw [h3]
  have hget : s[pre.length]? = some r := by
    rw [hs]; exact getElem?_length_append pre r post
  refine ⟨hres, pre.length, r, hfind, hget, r, ?_, fun _ => rfl, rfl, rfl⟩
  rw [hres]
  exact hget

theorem modify_out_of_range_unchanged_witness :
    StudentReach example_store ∧ (∃ r ∈ example_store, r.id = "s1") ∧
    modify_student_record example_store "s1" (fun _ => some (-1)) =
      (Status.ok, example_store) ∧
    modify_student_record example_store "s1" (fun _ => some 101) =
      (Status.ok, example_store) :=
  have hr : StudentReach example_store := StudentReach.add "s1" "Asha" _ StudentReach.init
  have hex : ∃ r ∈ example_store, r.id = "s1" :=
    ⟨calc_total_and_cgpa example_student, by rw [example_store_eq]; simp, rfl⟩
  ⟨hr, hex,
    (modify_out_of_range_unchanged example_store "s1" (fun _ => some (-1)) hr hex
      (fun _ m hm => Or.inl (by cases hm; decide))).1,
    (modify_out_of_range_unchanged example_store "s1" (fun _ => some 101) hr hex
      (fun _ m hm => Or.inr (by cases hm; decide))).1⟩

end SRMS
